import Mathlib

/-! Platypus firmware: time codec, log buffer, flushing, acquisition and display loops

A shallow embedding of `platypus/firmware/src/platypus.cpp`.

* C `int` values are modelled as `Int`; wherever the source applies a bit
  operation to an `int`, the 32-bit two's-complement pattern of the value is
  taken first (`toU32`).
* `uint8_t`, `uint16_t`, `uint32_t` values are `Nat` with an explicit
  reduction modulo `2^8`, `2^16`, `2^32` at every assignment.
* `std::vector<uint8_t>` is `List Nat`, `push_back` appends at the end.
-/

set_option autoImplicit false

namespace Platypus

/-! ## Machine integers -/

/-- Bit pattern of a C `int` on 32 bits (two's complement). -/
def toU32 (x : Int) : Nat := (x % 4294967296).toNat

/-- The C expression `x & m` for an `int` operand `x` and a non-negative constant
mask `m`. -/
def cand (x : Int) (m : Nat) : Nat := toU32 x &&& m

/-- The C expression `x << k` on an `int`, before any wrap-around. -/
def cshl (x : Int) (k : Nat) : Int := x * 2 ^ k

/-! ## struct tm

Only the six fields that `timeToBytes` reads and `bytesToTime` writes are kept;
`bytesToTime` leaves every other field of the C structure unset. -/

/-- Broken-down calendar time, the fields of `struct tm` used by the codec. -/
structure Tm where
  tm_sec : Int
  tm_min : Int
  tm_hour : Int
  tm_mday : Int
  tm_mon : Int
  tm_year : Int
deriving DecidableEq, Repr

/-- Source `platypus::timeToBytes`: packs a time into a 32-bit word. -/
def timeToBytes (t : Tm) : Nat :=
  -- b4: YYYYYYMM
  let b4 := (cand (cshl (t.tm_year - 100) 2) 0xFC ||| (cand (t.tm_mon + 1) 0x0C >>> 2)) % 256
  -- b3: MMDDDDDh
  let b3 := ((cand (t.tm_mon + 1) 0x03 <<< 6) ||| (cand t.tm_mday 0x1F <<< 1)
              ||| (cand t.tm_hour 0x10 >>> 4)) % 256
  -- b2: hhhhmmmm
  let b2 := ((cand t.tm_hour 0x0F <<< 4) ||| (cand t.tm_min 0x3C >>> 2)) % 256
  -- b1: mmssssss
  let b1 := ((cand t.tm_min 0x03 <<< 6) ||| cand t.tm_sec 0x3F) % 256
  ((b1 <<< 24) ||| (b2 <<< 16) ||| (b3 <<< 8) ||| b4) % 4294967296

/-- Source `platypus::bytesToTime`: unpacks a 32-bit word. -/
def bytesToTime (b : Nat) : Tm :=
  let b1 := (b >>> 24) % 256
  let b2 := (b >>> 16) % 256
  let b3 := (b >>> 8) % 256
  let b4 := b % 256
  { tm_year := (((b4 &&& 0xFC) >>> 2 : Nat) : Int) + 100
    tm_mon := ((((b4 &&& 0x03) <<< 2) + ((b3 &&& 0xC0) >>> 6) : Nat) : Int) - 1
    tm_mday := (((b3 &&& 0x3E) >>> 1 : Nat) : Int)
    tm_hour := ((((b3 &&& 0x01) <<< 4) + ((b2 &&& 0xF0) >>> 4) : Nat) : Int)
    tm_min := ((((b2 &&& 0x0F) <<< 2) + ((b1 &&& 0xC0) >>> 6) : Nat) : Int)
    tm_sec := ((b1 &&& 0x3F : Nat) : Int) }

/-- A timestamp inside the representable range of the codec: years 2000..2063
(`tm_year` counts from 1900), months 1..12 (`tm_mon` counts from 0). -/
def ValidTm (t : Tm) : Prop :=
  100 ≤ t.tm_year ∧ t.tm_year ≤ 163 ∧ 0 ≤ t.tm_mon ∧ t.tm_mon ≤ 11 ∧
  1 ≤ t.tm_mday ∧ t.tm_mday ≤ 31 ∧ 0 ≤ t.tm_hour ∧ t.tm_hour ≤ 23 ∧
  0 ≤ t.tm_min ∧ t.tm_min ≤ 59 ∧ 0 ≤ t.tm_sec ∧ t.tm_sec ≤ 59

instance (t : Tm) : Decidable (ValidTm t) := by
  unfold ValidTm; infer_instance

/-! ## Device state

`platypus.h` is not part of the sources; the members below are the ones that
`platypus.cpp` initialises in the constructor and uses. -/

/-- The enumeration `DisplayStates`, with the enumerators used in `platypus.cpp`. -/
inductive DisplayStates where
  | NOCHANGE | INIT | OFF | CLOCK | MENU_BACK | MENU_WIFI | MENU_BT | MENU_SAVE
  | MENU_STATS | MENU_CONFIG | STATS | CONFIG | IDLE
deriving DecidableEq, Repr

/-- Members of the class `platypus`. The two log vectors `m_data_memory[0]` and
`m_data_memory[1]` are indexed by `m_data_idx`. -/
structure State where
  m_dsp_init : Bool
  m_imu_init : Bool
  m_env_init : Bool
  m_mcu_init : Bool
  m_ldc_init : Bool
  m_bat_init : Bool
  m_active : Bool
  m_force_save : Bool
  m_saving : Bool
  m_data_idx : Fin 2
  m_debug : Int
  m_dsp_state : DisplayStates
  m_wifi_enabled : Bool
  m_bt_enabled : Bool
  m_imu_data : List Int
  m_data_memory : Fin 2 → List Nat

/-- Source constructor `platypus::platypus(int debug)`. -/
def platypus (debug : Int) : State :=
  { m_dsp_init := false, m_imu_init := false, m_env_init := false, m_mcu_init := false
    m_ldc_init := false, m_bat_init := false, m_active := false
    m_force_save := false, m_saving := false, m_data_idx := 0, m_debug := debug
    m_dsp_state := DisplayStates.IDLE
    m_wifi_enabled := true, m_bt_enabled := false
    m_imu_data := List.replicate 7 0
    m_data_memory := fun _ => [] }

/-- Source `platypus::imu_init`, as far as the class members are concerned. -/
def imu_init (env_init : Bool) (s : State) : State :=
  { s with m_imu_init := true, m_env_init := env_init }

/-- Source `platypus::ldc_init`, as far as the class members are concerned. -/
def ldc_init (s : State) : State :=
  { s with m_ldc_init := true }

/-- The vector `m_data_memory[m_data_idx]`. -/
def active (s : State) : List Nat := s.m_data_memory s.m_data_idx

/-- The effect of `m_data_memory[m_data_idx].push_back(..)` for each element of `bs` in turn. -/
def pushActive (bs : List Nat) (s : State) : State :=
  { s with m_data_memory := Function.update s.m_data_memory s.m_data_idx (active s ++ bs) }

/-! ## Log header

What `writeHeader` obtains from outside the class at one call: the local time, the two ADC
values of the light sensor and the three environmental values stored by `getEnvData`. -/

/-- Values read from the collaborators during one call of `writeHeader`. -/
structure HeaderInputs where
  time : Tm
  adc0 : Nat
  adc1 : Nat
  temp : Int
  press : Nat
  hum : Nat

/-- The local vector `header` built by `platypus::writeHeader`. -/
def headerVec (r : HeaderInputs) (s : State) : List Nat :=
  let header_time : Nat := timeToBytes r.time
  let LDC0 : Nat := if s.m_ldc_init then r.adc0 % 65536 else 0
  let LDC1 : Nat := if s.m_ldc_init then r.adc1 % 65536 else 0
  let temp : Nat := if s.m_imu_init && s.m_env_init then toU32 r.temp else 0
  let press : Nat := if s.m_imu_init && s.m_env_init then r.press % 4294967296 else 0
  let hum : Nat := if s.m_imu_init && s.m_env_init then r.hum % 4294967296 else 0
  [ ((header_time &&& 0xFF000000) >>> 24) % 256,
    ((header_time &&& 0xFF0000) >>> 16) % 256,
    ((header_time &&& 0xFF00) >>> 8) % 256,
    (header_time &&& 0xFF) % 256,
    ((LDC0 &&& 0xFF00) >>> 8) % 256,
    (LDC0 &&& 0xFF) % 256,
    ((LDC1 &&& 0xFF00) >>> 8) % 256,
    (LDC1 &&& 0xFF) % 256,
    ((temp &&& 0xFF000000) >>> 24) % 256,
    ((temp &&& 0xFF0000) >>> 16) % 256,
    ((temp &&& 0xFF00) >>> 8) % 256,
    (temp &&& 0xFF) % 256,
    ((press &&& 0xFF000000) >>> 24) % 256,
    ((press &&& 0xFF0000) >>> 16) % 256,
    ((press &&& 0xFF00) >>> 8) % 256,
    (press &&& 0xFF) % 256,
    ((hum &&& 0xFF000000) >>> 24) % 256,
    ((hum &&& 0xFF0000) >>> 16) % 256,
    ((hum &&& 0xFF00) >>> 8) % 256,
    (hum &&& 0xFF) % 256 ]

/-- Source `platypus::writeHeader` (the debug print is left out). -/
def writeHeader (r : HeaderInputs) (s : State) : State :=
  if !s.m_imu_init && !s.m_ldc_init && !s.m_env_init then s
  else pushActive (headerVec r s) s

/-! ## Appending data -/

/-- Source `platypus::writeData(uint8_t)`. -/
def writeData8 (r : HeaderInputs) (data : Nat) (s : State) : State :=
  if !s.m_imu_init then s
  else
    let s1 := if (active s).length % 7220 = 0 then writeHeader r s else s
    pushActive [data % 256] s1

/-- The two bytes pushed by `platypus::writeData(int16_t)`:
`(data & 0xFF00) >> 8`, then `data & 0xFF`. -/
def sampleBytes (data : Int) : List Nat :=
  [(cand data 0xFF00 >>> 8) % 256, (cand data 0xFF) % 256]

/-- Source `platypus::writeData(int16_t)`. -/
def writeData16 (r : HeaderInputs) (data : Int) (s : State) : State :=
  if !s.m_imu_init then s
  else
    let s1 := if (active s).length % 7220 = 0 then writeHeader r s else s
    pushActive (sampleBytes data) s1

/-- The loop `for (i ...) writeData(data[i])` over `int16_t` values; `rs i` is what the
collaborators would deliver during the call for element `i`. -/
def writeDataLoop16 (rs : Nat → HeaderInputs) : Nat → List Int → State → State
  | _, [], s => s
  | i, d :: ds, s => writeDataLoop16 rs (i + 1) ds (writeData16 (rs i) d s)

/-- Source `platypus::writeData(std::vector<int16_t>)`. -/
def writeDataVec16 (rs : Nat → HeaderInputs) (data : List Int) (s : State) : State :=
  if !s.m_imu_init then s else writeDataLoop16 rs 0 data s

/-! ## Reading a log back

The reader described for the log format: headers are the 20 bytes at every offset that is a
multiple of 7220, everything else is a big-endian signed 16-bit pair. -/

/-- Big-endian bytes of a 32-bit word. -/
def be32 (w : Nat) : List Nat :=
  [w / 16777216 % 256, w / 65536 % 256, w / 256 % 256, w % 256]

/-- Big-endian bytes of a 16-bit word. -/
def be16 (w : Nat) : List Nat := [w / 256 % 256, w % 256]

/-- Removes the bytes whose offset `p` (counted from `off`) has `p mod 7220 < 20`. -/
def stripHeadersFrom : Nat → List Nat → List Nat
  | _, [] => []
  | off, b :: bs =>
    if off % 7220 < 20 then stripHeadersFrom (off + 1) bs
    else b :: stripHeadersFrom (off + 1) bs

/-- Removes the 20 bytes at every offset that is a multiple of 7220. -/
def stripHeaders (buf : List Nat) : List Nat := stripHeadersFrom 0 buf

/-- The signed value of a big-endian two's-complement byte pair. -/
def int16OfBytes (hi lo : Nat) : Int :=
  if hi * 256 + lo < 32768 then ((hi * 256 + lo : Nat) : Int)
  else ((hi * 256 + lo : Nat) : Int) - 65536

/-- Reads a byte sequence as big-endian signed 16-bit pairs. -/
def readInt16BE : List Nat → List Int
  | hi :: lo :: rest => int16OfBytes hi lo :: readInt16BE rest
  | _ => []

/-- The call `writeData(d)` in state `s`, with collaborator values `r`, puts a header at byte
offset `o` of the active vector: the vector had length `o` and now continues with the
header followed by the two bytes of `d`. -/
def InsertsHeaderAt (r : HeaderInputs) (d : Int) (s : State) (o : Nat) : Prop :=
  (active s).length = o ∧
    active (writeData16 r d s) = active s ++ headerVec r s ++ sampleBytes d

/-! ## Tap handling -/

/-- Source `platypus::tap_event`. The arguments `x y z` are `curr_imu[0..2]`, the accelerometer
part of what the sensor collaborator's `toReadable` returns for the current snapshot. The
result is the returned value together with the new state. -/
def tap_event (x y z : ℚ) (s : State) : DisplayStates × State :=
  if x > 1 ∨ x < -1 then (DisplayStates.NOCHANGE, s)
  else if y > 1 ∨ y < -1 then (DisplayStates.NOCHANGE, s)
  else if z < 9 then (DisplayStates.NOCHANGE, s)
  else
    let s1 : State :=
      match s.m_dsp_state with
      | DisplayStates.INIT => s
      | DisplayStates.OFF => { s with m_dsp_state := DisplayStates.CLOCK }
      | DisplayStates.CLOCK => { s with m_dsp_state := DisplayStates.MENU_BACK }
      | DisplayStates.MENU_BACK => { s with m_dsp_state := DisplayStates.MENU_WIFI }
      | DisplayStates.MENU_WIFI => { s with m_dsp_state := DisplayStates.MENU_BT }
      | DisplayStates.MENU_BT => { s with m_dsp_state := DisplayStates.MENU_SAVE }
      | DisplayStates.MENU_SAVE => { s with m_dsp_state := DisplayStates.MENU_STATS }
      | DisplayStates.MENU_STATS => { s with m_dsp_state := DisplayStates.MENU_CONFIG }
      | DisplayStates.MENU_CONFIG => { s with m_dsp_state := DisplayStates.MENU_BACK }
      | DisplayStates.STATS => { s with m_dsp_state := DisplayStates.MENU_BACK }
      | DisplayStates.CONFIG => { s with m_dsp_state := DisplayStates.MENU_BACK }
      | DisplayStates.IDLE => s
      | _ => s
    (s1.m_dsp_state, s1)

/-- The step of the menu ring as the interface description lists it. -/
def tapRing : DisplayStates → DisplayStates
  | DisplayStates.OFF => DisplayStates.CLOCK
  | DisplayStates.CLOCK => DisplayStates.MENU_BACK
  | DisplayStates.MENU_BACK => DisplayStates.MENU_WIFI
  | DisplayStates.MENU_WIFI => DisplayStates.MENU_BT
  | DisplayStates.MENU_BT => DisplayStates.MENU_SAVE
  | DisplayStates.MENU_SAVE => DisplayStates.MENU_STATS
  | DisplayStates.MENU_STATS => DisplayStates.MENU_CONFIG
  | DisplayStates.MENU_CONFIG => DisplayStates.MENU_BACK
  | DisplayStates.STATS => DisplayStates.MENU_BACK
  | DisplayStates.CONFIG => DisplayStates.MENU_BACK
  | DisplayStates.INIT => DisplayStates.INIT
  | DisplayStates.IDLE => DisplayStates.IDLE
  | DisplayStates.NOCHANGE => DisplayStates.NOCHANGE

/-- A reading that passes the three range checks of `tap_event`. -/
def Accepted (x y z : ℚ) : Prop := |x| ≤ 1 ∧ |y| ≤ 1 ∧ 9 ≤ z

/-- Consecutive calls of `tap_event`, one per reading; yields the returned values in order
and the final state. -/
def tapSequence : List (ℚ × ℚ × ℚ) → State → List DisplayStates × State
  | [], s => ([], s)
  | (x, y, z) :: rest, s =>
    let r := tap_event x y z s
    let q := tapSequence rest r.2
    (r.1 :: q.1, q.2)

/-- The states visited by `n` consecutive steps of the menu ring starting after `d`. -/
def ringFrom : Nat → DisplayStates → List DisplayStates
  | 0, _ => []
  | n + 1, d => tapRing d :: ringFrom n (tapRing d)

/-- The three flags read by `headerVec`, the active index and the vector that is not active
are the same in `t` as in `s`. -/
def SameCfg (s t : State) : Prop :=
  t.m_imu_init = s.m_imu_init ∧ t.m_ldc_init = s.m_ldc_init ∧ t.m_env_init = s.m_env_init ∧
    t.m_data_idx = s.m_data_idx ∧ ∀ i, i ≠ s.m_data_idx → t.m_data_memory i = s.m_data_memory i

/-! ## Appending bytes -/

/-- The loop `for (i ...) writeData(data[i])` over `uint8_t` values; `rs i` is what the
collaborators would deliver during the call for element `i`. -/
def writeDataLoop8 (rs : Nat → HeaderInputs) : Nat → List Nat → State → State
  | _, [], s => s
  | i, d :: ds, s => writeDataLoop8 rs (i + 1) ds (writeData8 (rs i) d s)

/-- Source `platypus::writeData(std::vector<uint8_t>)`. -/
def writeDataVec8 (rs : Nat → HeaderInputs) (data : List Nat) (s : State) : State :=
  if !s.m_imu_init then s else writeDataLoop8 rs 0 data s

/-! ## Log directory

The directory `/home/root/pps_logs/` is a list of files; `readdir` delivers their names in
list order (entries such as `.` and `..` carry no `datalog` and are skipped by the scan).
Names are character lists. -/

/-- A file of the log directory. -/
structure LogFile where
  name : List Char
  content : List Nat
deriving DecidableEq

/-- The names delivered by `readdir`. -/
def fileNames (fs : List LogFile) : List (List Char) := fs.map (fun f => f.name)

/-- Content of the file called `name`, if there is one. -/
def fileContent : List LogFile → List Char → Option (List Nat)
  | [], _ => none
  | f :: fs, name => if f.name = name then some f.content else fileContent fs name

/-- Opening `name` with `std::ofstream::app` and putting the bytes `bs`: an existing file
grows at its end, otherwise the file is created. -/
def appendFile : List LogFile → List Char → List Nat → List LogFile
  | [], name, bs => [⟨name, bs⟩]
  | f :: fs, name, bs =>
    if f.name = name then ⟨f.name, f.content ++ bs⟩ :: fs else f :: appendFile fs name bs

/-- The characters of `datalog`. -/
def datalogChars : List Char := ['d', 'a', 't', 'a', 'l', 'o', 'g']

/-- The characters of `.bin`. -/
def binChars : List Char := ['.', 'b', 'i', 'n']

/-- The call `curr.find(pat)`: position of the first occurrence, `none` for `npos`. -/
def findStr (pat : List Char) : List Char → Option Nat
  | [] => if pat.isEmpty then some 0 else none
  | c :: cs =>
    if pat.isPrefixOf (c :: cs) then some 0 else (findStr pat cs).map (fun p => p + 1)

/-- The predicate `isspace` in the C locale. -/
def isSpaceC (c : Char) : Bool := c.toNat == 32 || (9 ≤ c.toNat && c.toNat ≤ 13)

/-- The call `std::stoi(s)`: leading white space, an optional sign, then decimal digits up to
the first other character; `none` stands for the exception `std::invalid_argument` thrown when
there is no digit. (Overflow cannot occur on the at most four characters passed here.) -/
def stoi (s : List Char) : Option Int :=
  let s1 := s.dropWhile isSpaceC
  let neg : Bool := s1.head? == some '-'
  let s2 : List Char :=
    match s1 with
    | c :: r => if c = '-' ∨ c = '+' then r else s1
    | [] => []
  let ds := s2.takeWhile Char.isDigit
  if ds.isEmpty then none
  else
    let v : Int := ds.foldl (fun acc c => acc * 10 + ((c.toNat - 48 : Nat) : Int)) 0
    some (if neg then -v else v)

/-- The `readdir` loop of `writeDataToFlash`, started with the value `filenum`. -/
def scanFrom : Int → List (List Char) → Option Int
  | filenum, [] => some filenum
  | filenum, curr :: rest =>
    match findStr datalogChars curr with
    | none => scanFrom filenum rest
    | some pos =>
      let begin := pos + 7
      let sub := (curr.drop begin).take 4
      match stoi sub with
      | none => none
      | some v => scanFrom (if v + 1 > filenum then v + 1 else filenum) rest

/-- The file number chosen by `writeDataToFlash` for a directory with the given names. -/
def scanDir (names : List (List Char)) : Option Int := scanFrom 0 names

/-- The output of `std::setfill('0') << std::setw(4) << filenum` for `filenum ≥ 0`. -/
def fmt4 (filenum : Nat) : List Char :=
  let ds := Nat.toDigits 10 filenum
  List.replicate (4 - ds.length) '0' ++ ds

/-- The file name `datalogXXXX.bin` built by `writeDataToFlash`. -/
def logName (filenum : Nat) : List Char := datalogChars ++ fmt4 filenum ++ binChars

/-! ## Flushing

`writeDataToFlash(data)` receives the vector `m_data_memory[idx]` by reference. Its body is
split at the point where `m_saving` has been set: `flushBegin` is the part up to there,
`flushFinish` the rest. Failures of the file stream are not checked by the source and not
modelled. -/

/-- First part of `writeDataToFlash`, after the guard and the lock: `m_saving = true`. -/
def flushBegin (s : State) : State := { s with m_saving := true }

/-- Second part of `writeDataToFlash`: choose the file, write the bytes of slot `idx`, clear
the slot, `m_saving = false`. `none` when `std::stoi` throws during the scan. -/
def flushFinish (idx : Fin 2) (s : State) (fs : List LogFile) : Option (State × List LogFile) :=
  match scanDir (fileNames fs) with
  | none => none
  | some filenum =>
    some ({ s with m_data_memory := Function.update s.m_data_memory idx [], m_saving := false },
      appendFile fs (logName filenum.toNat) (s.m_data_memory idx))

/-- Source `platypus::writeDataToFlash`, applied to the vector of slot `idx`. -/
def writeDataToFlash (idx : Fin 2) (s : State) (fs : List LogFile) :
    Option (State × List LogFile) :=
  if !s.m_imu_init then some (s, fs) else flushFinish idx (flushBegin s) fs

/-- Source `platypus::writeDataToFlashIDX`. -/
def writeDataToFlashIDX (idx : Fin 2) (s : State) (fs : List LogFile) :
    Option (State × List LogFile) :=
  writeDataToFlash idx s fs

/-- Source destructor `platypus::~platypus`: one flush of the active slot (releasing the
collaborators has no effect on the members kept here). -/
def destroy (s : State) (fs : List LogFile) : Option (State × List LogFile) :=
  writeDataToFlashIDX s.m_data_idx s fs

/-- Consecutive flushes of slot `idx`, `k` of them. -/
def flushTimes (idx : Fin 2) : Nat → State → List LogFile → Option (State × List LogFile)
  | 0, s, fs => some (s, fs)
  | k + 1, s, fs =>
    match writeDataToFlashIDX idx s fs with
    | none => none
    | some (s1, fs1) => flushTimes idx k s1 fs1

/-! ## Acquisition loop -/

/-- The C expression `!x` on an unsigned 8-bit value, stored back as a number. -/
def lnot (x : Nat) : Nat := if x = 0 then 1 else 0

/-- The assignment `m_data_idx = !m_data_idx`. -/
def flipIdx (i : Fin 2) : Fin 2 := ⟨lnot i.val, by unfold lnot; split <;> omega⟩

/-- What the IMU collaborator delivers during one iteration of `t_imu`: the FIFO content,
the values for any header written while it is stored, and the raw temperature. -/
structure ImuInputs where
  fifo : List Int
  rs : Nat → HeaderInputs
  rawTemp : Int

/-- The loop `for (i < 6) m_imu_data[i] = fifo_data[fifo_data.size() - 6 + i]`, guarded by
`fifo_data.size() >= 6`. -/
def updateSnapshot (fifo : List Int) (m_imu_data : List Int) : List Int :=
  if fifo.length ≥ 6 then
    (List.range 6).foldl (fun acc i => acc.set i (fifo.getD (fifo.length - 6 + i) 0)) m_imu_data
  else m_imu_data

/-- One iteration of the loop in `platypus::t_imu` (the loop runs while `m_active` and
`m_imu_init` hold). The second component is the slot for which a flush task was launched
with `std::async`, if any. -/
def t_imu_tick (inp : ImuInputs) (s : State) : State × Option (Fin 2) :=
  let sched : Bool :=
    !s.m_saving && (s.m_force_save || decide ((active s).length ≥ 134217728))
  let s1 : State :=
    if sched then { s with m_data_idx := flipIdx s.m_data_idx, m_force_save := false } else s
  let s2 := writeDataVec16 inp.rs inp.fifo s1
  let s3 : State :=
    { s2 with m_imu_data := (updateSnapshot inp.fifo s2.m_imu_data).set 6 inp.rawTemp }
  (s3, if sched then some s.m_data_idx else none)

/-! ## Interleaving of the loops and the flush tasks -/

/-- A flush task launched by `t_imu` that has not finished: the slot it was given and
whether it has already passed `m_saving = true`. -/
structure FlushTask where
  idx : Fin 2
  started : Bool
deriving DecidableEq

/-- Device state, log directory and unfinished flush tasks (oldest first). -/
structure Sys where
  st : State
  fs : List LogFile
  handles : List FlushTask

/-- The steps of the interleaving. -/
inductive Event where
  | tick (inp : ImuInputs)
  | setForceSave
  | flushStart (k : Nat)
  | flushEnd (k : Nat)

/-- One step; `none` when the step cannot happen in this state. A flush task can only pass
the lock while no other task holds it. -/
def step : Event → Sys → Option Sys
  | Event.tick inp, y =>
    let r := t_imu_tick inp y.st
    match r.2 with
    | some i => some { y with st := r.1, handles := y.handles ++ [⟨i, false⟩] }
    | none => some { y with st := r.1 }
  | Event.setForceSave, y => some { y with st := { y.st with m_force_save := true } }
  | Event.flushStart k, y =>
    match y.handles.get? k with
    | none => none
    | some t =>
      if t.started || y.handles.any (fun u => u.started) then none
      else if !y.st.m_imu_init then some { y with handles := y.handles.eraseIdx k }
      else some { y with st := flushBegin y.st, handles := y.handles.set k ⟨t.idx, true⟩ }
  | Event.flushEnd k, y =>
    match y.handles.get? k with
    | none => none
    | some t =>
      if !t.started then none
      else
        match flushFinish t.idx y.st y.fs with
        | none => some { y with handles := y.handles.eraseIdx k }
        | some (s1, fs1) => some { st := s1, fs := fs1, handles := y.handles.eraseIdx k }

/-- A sequence of steps. -/
def run : List Event → Sys → Option Sys
  | [], y => some y
  | e :: es, y =>
    match step e y with
    | none => none
    | some y1 => run es y1

/-! ## Display loop

`MENU_TIME` is a constant of `platypus.h`, which is not part of the sources; it is a
parameter here. Calls to the display collaborator change none of the members and are left
out. -/

/-- The local variables of `t_display` that live across iterations. -/
structure DspLoop where
  prev_dsp : DisplayStates
  sec_counter : Int
deriving DecidableEq

/-- The statements of `t_display` before its loop. -/
def t_display_start (s : State) : DspLoop × State :=
  ({ prev_dsp := s.m_dsp_state, sec_counter := 0 }, { s with m_dsp_state := DisplayStates.INIT })

/-- The `switch` of one iteration of `t_display`: new counter, new members, and the flag
`state_changed`. -/
def t_display_switch (MENU_TIME : Int) (d : DspLoop) (s : State) : Int × State × Bool :=
  match s.m_dsp_state with
  | DisplayStates.INIT =>
    if d.prev_dsp ≠ s.m_dsp_state then (0, s, false)
    else if d.sec_counter < 5 then (d.sec_counter + 1, s, false)
    else (0, { s with m_dsp_state := DisplayStates.OFF }, true)
  | DisplayStates.OFF => (d.sec_counter, s, false)
  | DisplayStates.CLOCK =>
    if d.prev_dsp ≠ s.m_dsp_state then (d.sec_counter, s, false)
    else if d.sec_counter < 180 then (d.sec_counter + 1, s, false)
    else (0, { s with m_dsp_state := DisplayStates.OFF }, true)
  | DisplayStates.MENU_BACK =>
    if d.prev_dsp ≠ s.m_dsp_state then (0, s, false)
    else if d.sec_counter < MENU_TIME then (d.sec_counter + 1, s, false)
    else (0, { s with m_dsp_state := DisplayStates.CLOCK }, true)
  | DisplayStates.MENU_WIFI =>
    if d.prev_dsp ≠ s.m_dsp_state then (0, s, false)
    else if d.sec_counter < MENU_TIME then (d.sec_counter + 1, s, false)
    else
      (0, { s with m_wifi_enabled := if s.m_wifi_enabled then false else true,
                   m_dsp_state := DisplayStates.MENU_BACK }, true)
  | DisplayStates.MENU_BT =>
    if d.prev_dsp ≠ s.m_dsp_state then (0, s, false)
    else if d.sec_counter < MENU_TIME then (d.sec_counter + 1, s, false)
    else
      (0, { s with m_bt_enabled := if s.m_bt_enabled then false else true,
                   m_dsp_state := DisplayStates.MENU_BACK }, true)
  | DisplayStates.MENU_SAVE =>
    if d.prev_dsp ≠ s.m_dsp_state then (0, s, false)
    else if d.sec_counter < MENU_TIME then (d.sec_counter + 1, s, false)
    else (0, { s with m_force_save := true, m_dsp_state := DisplayStates.MENU_BACK }, true)
  | DisplayStates.MENU_STATS =>
    if d.prev_dsp ≠ s.m_dsp_state then (0, s, false)
    else if d.sec_counter < MENU_TIME then (d.sec_counter + 1, s, false)
    else (0, { s with m_dsp_state := DisplayStates.STATS }, true)
  | DisplayStates.MENU_CONFIG =>
    if d.prev_dsp ≠ s.m_dsp_state then (0, s, false)
    else if d.sec_counter < MENU_TIME then (d.sec_counter + 1, s, false)
    else (0, { s with m_dsp_state := DisplayStates.CONFIG }, true)
  | DisplayStates.STATS => (d.sec_counter, s, false)
  | DisplayStates.CONFIG => (d.sec_counter, s, false)
  | DisplayStates.IDLE => (d.sec_counter, s, false)
  | _ => (d.sec_counter, s, false)

/-- One iteration of the loop in `platypus::t_display` (the loop runs while `m_active` and
`m_dsp_init` hold): the `switch`, then `if (!state_changed) prev_dsp = m_dsp_state`. -/
def t_display_tick (MENU_TIME : Int) (d : DspLoop) (s : State) : DspLoop × State :=
  let r := t_display_switch MENU_TIME d s
  ({ prev_dsp := if !r.2.2 then r.2.1.m_dsp_state else d.prev_dsp, sec_counter := r.1 }, r.2.1)

/-- The iteration takes the first branch of its `case`, the one for a state just entered. -/
def EntryBranch (d : DspLoop) (s : State) : Prop := d.prev_dsp ≠ s.m_dsp_state

/-- Display ticks in a row, `n` of them, with no tap in between. -/
def displayTicks (MENU_TIME : Int) : Nat → DspLoop × State → DspLoop × State
  | 0, p => p
  | n + 1, p => displayTicks MENU_TIME n (t_display_tick MENU_TIME p.1 p.2)

/-- The pairs of loop variables and members reachable after `t_display` has started, by
display iterations and calls of `tap_event` in any order. -/
inductive DspReach (MENU_TIME : Int) : DspLoop × State → Prop where
  | start (s : State) : DspReach MENU_TIME (t_display_start s)
  | tick (d : DspLoop) (s : State) :
      DspReach MENU_TIME (d, s) → DspReach MENU_TIME (t_display_tick MENU_TIME d s)
  | tap (d : DspLoop) (s : State) (x y z : ℚ) :
      DspReach MENU_TIME (d, s) → DspReach MENU_TIME (d, (tap_event x y z s).2)

/-! ## Example inputs -/

/-- Collaborator values used in the examples. -/
def exampleInputs : Nat → HeaderInputs :=
  fun i => ⟨⟨0, 0, 0, 1, 0, 124⟩, i, 2, -1, 3, 4⟩

/-- A freshly constructed device with the IMU and its environmental part set up. -/
def exampleState : State := imu_init true (platypus 0)

/-- A log directory holding `datalog0000.bin` and `datalog0003.bin`. -/
def exampleDir : List LogFile :=
  [⟨("datalog0000.bin").toList, []⟩, ⟨("datalog0003.bin").toList, [1, 2]⟩]

/-- One FIFO read of six values, with raw temperature 25. -/
def exampleImu : ImuInputs := ⟨[1, 2, 3, 4, 5, 6], exampleInputs, 25⟩

/-- The example device with no file and no flush task. -/
def exampleSys : Sys := ⟨exampleState, [], []⟩

/-- A tick, a save request from the menu, the tick that acts on it, and a second save
request made before the launched flush task has started. -/
def raceTrace : List Event :=
  [Event.tick exampleImu, Event.setForceSave, Event.tick exampleImu, Event.setForceSave]

/-- Slot `i` has been given to a flush task that has not finished. -/
def HandedOver (y : Sys) (i : Fin 2) : Prop := ∃ t ∈ y.handles, t.idx = i

/-- Every `datalog` entry of the directory is a name with four digits. -/
def FourDigitDir (names : List (List Char)) : Prop :=
  ∀ e ∈ names, (∃ i, i < 10000 ∧ e = logName i) ∨ findStr datalogChars e = none

/-! ## Bit-level facts -/

theorem land_mod (n m p k : Nat) (hp : p = 2 ^ k) (h : m < p) : n &&& m = (n % p) &&& m := by
  subst hp
  rw [← Nat.and_pow_two_sub_one_eq_mod, Nat.and_assoc]
  congr 1
  rw [Nat.and_comm, Nat.and_pow_two_sub_one_eq_mod, Nat.mod_eq_of_lt h]

theorem or_eq_add (k a b : Nat) (ha : a % 2 ^ k = 0) (hb : b < 2 ^ k) : a ||| b = a + b := by
  obtain ⟨c, rfl⟩ := Nat.dvd_of_mod_eq_zero ha
  exact (Nat.mul_add_lt_is_or hb c).symm

set_option maxRecDepth 100000 in
theorem enc_b4_bits : ∀ Y < 256, ∀ M < 16,
    ((Y &&& 0xFC) ||| ((M &&& 0x0C) >>> 2)) % 256 = Y / 4 * 4 + M / 4 := by
  decide

set_option maxRecDepth 100000 in
theorem enc_b3_bits : ∀ M < 4, ∀ D < 32, ∀ H < 32,
    (((M &&& 0x03) <<< 6) ||| ((D &&& 0x1F) <<< 1) ||| ((H &&& 0x10) >>> 4)) % 256
      = M * 64 + D * 2 + H / 16 := by
  decide

set_option maxRecDepth 100000 in
theorem enc_b2_bits : ∀ H < 16, ∀ N < 64,
    (((H &&& 0x0F) <<< 4) ||| ((N &&& 0x3C) >>> 2)) % 256 = H * 16 + N / 4 := by
  decide

set_option maxRecDepth 100000 in
theorem enc_b1_bits : ∀ N < 4, ∀ S < 64,
    (((N &&& 0x03) <<< 6) ||| (S &&& 0x3F)) % 256 = N * 64 + S := by
  decide

set_option maxRecDepth 100000 in
theorem dec_bits : ∀ b < 256,
    (b &&& 0xFC) >>> 2 = b / 4 ∧ (b &&& 0x03) <<< 2 = b % 4 * 4 ∧ (b &&& 0xC0) >>> 6 = b / 64 ∧
    (b &&& 0x3E) >>> 1 = b / 2 % 32 ∧ (b &&& 0x01) <<< 4 = b % 2 * 16 ∧
    (b &&& 0xF0) >>> 4 = b / 16 ∧ (b &&& 0x0F) <<< 2 = b % 16 * 4 ∧ b &&& 0x3F = b % 64 := by
  decide

theorem enc_b4 (y m : Int) :
    (cand (cshl y 2) 0xFC ||| (cand m 0x0C >>> 2)) % 256
      = (y % 64).toNat * 4 + (m % 16).toNat / 4 := by
  unfold cand
  rw [land_mod _ 0xFC 256 8 (by norm_num) (by norm_num), land_mod _ 0x0C 16 4 (by norm_num) (by norm_num),
    enc_b4_bits _ (Nat.mod_lt _ (by norm_num)) _ (Nat.mod_lt _ (by norm_num))]
  unfold toU32 cshl
  omega

theorem enc_b3 (m d h : Int) :
    ((cand m 0x03 <<< 6) ||| (cand d 0x1F <<< 1) ||| (cand h 0x10 >>> 4)) % 256
      = (m % 4).toNat * 64 + (d % 32).toNat * 2 + (h % 32).toNat / 16 := by
  unfold cand
  rw [land_mod _ 0x03 4 2 (by norm_num) (by norm_num), land_mod _ 0x1F 32 5 (by norm_num) (by norm_num),
    land_mod _ 0x10 32 5 (by norm_num) (by norm_num),
    enc_b3_bits _ (Nat.mod_lt _ (by norm_num)) _ (Nat.mod_lt _ (by norm_num)) _
      (Nat.mod_lt _ (by norm_num))]
  unfold toU32
  omega

theorem enc_b2 (h n : Int) :
    ((cand h 0x0F <<< 4) ||| (cand n 0x3C >>> 2)) % 256
      = (h % 16).toNat * 16 + (n % 64).toNat / 4 := by
  unfold cand
  rw [land_mod _ 0x0F 16 4 (by norm_num) (by norm_num), land_mod _ 0x3C 64 6 (by norm_num) (by norm_num),
    enc_b2_bits _ (Nat.mod_lt _ (by norm_num)) _ (Nat.mod_lt _ (by norm_num))]
  unfold toU32
  omega

theorem enc_b1 (n s : Int) :
    ((cand n 0x03 <<< 6) ||| cand s 0x3F) % 256 = (n % 4).toNat * 64 + (s % 64).toNat := by
  unfold cand
  rw [land_mod _ 0x03 4 2 (by norm_num) (by norm_num), land_mod _ 0x3F 64 6 (by norm_num) (by norm_num),
    enc_b1_bits _ (Nat.mod_lt _ (by norm_num)) _ (Nat.mod_lt _ (by norm_num))]
  unfold toU32
  omega

/-- Four bytes joined by shifts and ORs form the base-256 number. -/
theorem join_bytes (b1 b2 b3 b4 : Nat) (h1 : b1 < 256) (h2 : b2 < 256) (h3 : b3 < 256)
    (h4 : b4 < 256) :
    ((b1 <<< 24) ||| (b2 <<< 16) ||| (b3 <<< 8) ||| b4) % 4294967296
      = b1 * 16777216 + b2 * 65536 + b3 * 256 + b4 := by
  simp only [Nat.shiftLeft_eq]
  rw [or_eq_add 24 (b1 * 2 ^ 24) (b2 * 2 ^ 16) (by omega) (by omega),
    or_eq_add 16 (b1 * 2 ^ 24 + b2 * 2 ^ 16) (b3 * 2 ^ 8) (by omega) (by omega),
    or_eq_add 8 (b1 * 2 ^ 24 + b2 * 2 ^ 16 + b3 * 2 ^ 8) b4 (by omega) (by omega)]
  omega

/-- Arithmetic form of `timeToBytes`, valid for every input. -/
theorem timeToBytes_arith (t : Tm) :
    timeToBytes t
      = (((t.tm_min % 4).toNat * 64 + (t.tm_sec % 64).toNat) * 16777216
        + ((t.tm_hour % 16).toNat * 16 + (t.tm_min % 64).toNat / 4) * 65536
        + (((t.tm_mon + 1) % 4).toNat * 64 + (t.tm_mday % 32).toNat * 2
            + (t.tm_hour % 32).toNat / 16) * 256
        + (((t.tm_year - 100) % 64).toNat * 4 + ((t.tm_mon + 1) % 16).toNat / 4)) := by
  unfold timeToBytes
  simp only [enc_b4, enc_b3, enc_b2, enc_b1]
  rw [join_bytes _ _ _ _ (by omega) (by omega) (by omega) (by omega)]

/-- Arithmetic form of `bytesToTime`, valid for every input. -/
theorem bytesToTime_arith (b : Nat) :
    bytesToTime b =
      { tm_year := ((b % 256 / 4 : Nat) : Int) + 100
        tm_mon := ((b % 256 % 4 * 4 + b / 256 % 256 / 64 : Nat) : Int) - 1
        tm_mday := ((b / 256 % 256 / 2 % 32 : Nat) : Int)
        tm_hour := ((b / 256 % 256 % 2 * 16 + b / 65536 % 256 / 16 : Nat) : Int)
        tm_min := ((b / 65536 % 256 % 16 * 4 + b / 16777216 % 256 / 64 : Nat) : Int)
        tm_sec := ((b / 16777216 % 256 % 64 : Nat) : Int) } := by
  have h1 := dec_bits (b / 16777216 % 256) (Nat.mod_lt _ (by norm_num))
  have h2 := dec_bits (b / 65536 % 256) (Nat.mod_lt _ (by norm_num))
  have h3 := dec_bits (b / 256 % 256) (Nat.mod_lt _ (by norm_num))
  have h4 := dec_bits (b % 256) (Nat.mod_lt _ (by norm_num))
  obtain ⟨-, -, h1c, -, -, -, -, h1s⟩ := h1
  obtain ⟨-, -, -, -, -, h2h, h2m, -⟩ := h2
  obtain ⟨-, -, h3m, h3d, h3h, -, -, -⟩ := h3
  obtain ⟨h4y, h4m, -, -, -, -, -, -⟩ := h4
  unfold bytesToTime
  simp only [Nat.shiftRight_eq_div_pow] at h1c h1s h2h h2m h3m h3d h3h h4y h4m ⊢
  norm_num only at h1c h1s h2h h2m h3m h3d h3h h4y h4m ⊢
  rw [h1c, h1s, h2h, h2m, h3m, h3d, h3h, h4y, h4m]

theorem word_bytes (b1 b2 b3 b4 : Nat) (h1 : b1 < 256) (h2 : b2 < 256) (h3 : b3 < 256)
    (h4 : b4 < 256) :
    (b1 * 16777216 + b2 * 65536 + b3 * 256 + b4) / 16777216 % 256 = b1 ∧
    (b1 * 16777216 + b2 * 65536 + b3 * 256 + b4) / 65536 % 256 = b2 ∧
    (b1 * 16777216 + b2 * 65536 + b3 * 256 + b4) / 256 % 256 = b3 ∧
    (b1 * 16777216 + b2 * 65536 + b3 * 256 + b4) % 256 = b4 := by
  omega

theorem bytes_of_word (w : Nat) (h : w < 4294967296) :
    w = (w / 16777216 % 256) * 16777216 + (w / 65536 % 256) * 65536
          + (w / 256 % 256) * 256 + w % 256 := by
  omega

/-- Decoding a word given by its four bytes. -/
theorem bytesToTime_join (b1 b2 b3 b4 : Nat) (h1 : b1 < 256) (h2 : b2 < 256) (h3 : b3 < 256)
    (h4 : b4 < 256) :
    bytesToTime (b1 * 16777216 + b2 * 65536 + b3 * 256 + b4) =
      { tm_year := ((b4 / 4 : Nat) : Int) + 100
        tm_mon := ((b4 % 4 * 4 + b3 / 64 : Nat) : Int) - 1
        tm_mday := ((b3 / 2 % 32 : Nat) : Int)
        tm_hour := ((b3 % 2 * 16 + b2 / 16 : Nat) : Int)
        tm_min := ((b2 % 16 * 4 + b1 / 64 : Nat) : Int)
        tm_sec := ((b1 % 64 : Nat) : Int) } := by
  obtain ⟨e1, e2, e3, e4⟩ := word_bytes b1 b2 b3 b4 h1 h2 h3 h4
  rw [bytesToTime_arith, e1, e2, e3, e4]

/-- Decoding after encoding, for every input: each field is reduced to its bit width. -/
theorem bytesToTime_timeToBytes (t : Tm) :
    bytesToTime (timeToBytes t) =
      { tm_year := 100 + (t.tm_year - 100) % 64
        tm_mon := (t.tm_mon + 1) % 16 - 1
        tm_mday := t.tm_mday % 32
        tm_hour := t.tm_hour % 32
        tm_min := t.tm_min % 64
        tm_sec := t.tm_sec % 64 } := by
  rw [timeToBytes_arith, bytesToTime_join _ _ _ _ (by omega) (by omega) (by omega) (by omega)]
  simp only [Tm.mk.injEq]
  refine ⟨?_, ?_, ?_, ?_, ?_, ?_⟩ <;> omega

/-- Encoding after decoding, for every 32-bit word. -/
theorem timeToBytes_bytesToTime (u : Nat) (hu : u < 4294967296) :
    timeToBytes (bytesToTime u) = u := by
  rw [bytesToTime_arith, timeToBytes_arith]
  simp only []
  conv_rhs => rw [bytes_of_word u hu]
  have h1 : u / 16777216 % 256 < 256 := Nat.mod_lt _ (by norm_num)
  have h2 : u / 65536 % 256 < 256 := Nat.mod_lt _ (by norm_num)
  have h3 : u / 256 % 256 < 256 := Nat.mod_lt _ (by norm_num)
  have h4 : u % 256 < 256 := Nat.mod_lt _ (by norm_num)
  generalize u / 16777216 % 256 = c1 at h1 ⊢
  generalize u / 65536 % 256 = c2 at h2 ⊢
  generalize u / 256 % 256 = c3 at h3 ⊢
  generalize u % 256 = c4 at h4 ⊢
  refine congrArg₂ (· + ·) (congrArg₂ (· + ·) (congrArg₂ (· + ·) ?_ ?_) ?_) ?_ <;> omega

/-! ## Time codec -/

/-- C1: for every timestamp with year 2000..2063, month 1..12, day 1..31, hour 0..23, minute
and second 0..59, decoding the packed word gives back the same six fields. -/
theorem C1_decode_encode_valid (t : Tm) (h : ValidTm t) : bytesToTime (timeToBytes t) = t := by
  rw [bytesToTime_timeToBytes]
  obtain ⟨sec, mi, hr, d, mo, y⟩ := t
  simp only [ValidTm] at h
  simp only [Tm.mk.injEq]
  omega

theorem C1_decode_encode_valid_witness :
    ValidTm ⟨59, 59, 23, 31, 11, 163⟩ ∧
      bytesToTime (timeToBytes ⟨59, 59, 23, 31, 11, 163⟩) = ⟨59, 59, 23, 31, 11, 163⟩ :=
  ⟨by decide, C1_decode_encode_valid ⟨59, 59, 23, 31, 11, 163⟩ (by decide)⟩

/-- C2: for every valid timestamp the packed word is `b1*2^24 + b2*2^16 + b3*2^8 + b4` with
`b4 = (year-2000)*4 + month div 4`, `b3 = (month mod 4)*64 + day*2 + hour div 16`,
`b2 = (hour mod 16)*16 + minute div 4` and `b1 = (minute mod 4)*64 + second`, each of the four
being a byte. -/
theorem C2_packed_layout (t : Tm) (h : ValidTm t) :
    let year := t.tm_year + 1900
    let month := t.tm_mon + 1
    let b4 := (year - 2000) * 4 + month / 4
    let b3 := (month % 4) * 64 + t.tm_mday * 2 + t.tm_hour / 16
    let b2 := (t.tm_hour % 16) * 16 + t.tm_min / 4
    let b1 := (t.tm_min % 4) * 64 + t.tm_sec
    (timeToBytes t : Int) = b1 * 2 ^ 24 + b2 * 2 ^ 16 + b3 * 2 ^ 8 + b4 ∧
      (0 ≤ b1 ∧ b1 < 256) ∧ (0 ≤ b2 ∧ b2 < 256) ∧ (0 ≤ b3 ∧ b3 < 256) ∧ (0 ≤ b4 ∧ b4 < 256) := by
  obtain ⟨sec, mi, hr, d, mo, y⟩ := t
  simp only [ValidTm] at h
  rw [timeToBytes_arith]
  simp only []
  have e1 : (((mi % 4).toNat * 64 + (sec % 64).toNat : Nat) : Int) = mi % 4 * 64 + sec := by
    omega
  have e2 : (((hr % 16).toNat * 16 + (mi % 64).toNat / 4 : Nat) : Int)
      = hr % 16 * 16 + mi / 4 := by omega
  have e3 : ((((mo + 1) % 4).toNat * 64 + (d % 32).toNat * 2 + (hr % 32).toNat / 16 : Nat) : Int)
      = (mo + 1) % 4 * 64 + d * 2 + hr / 16 := by omega
  have e4 : ((((y - 100) % 64).toNat * 4 + ((mo + 1) % 16).toNat / 4 : Nat) : Int)
      = (y + 1900 - 2000) * 4 + (mo + 1) / 4 := by omega
  refine ⟨?_, ?_, ?_, ?_, ?_⟩
  · push_cast [← e1, ← e2, ← e3, ← e4]
    norm_num
  all_goals omega

theorem C2_packed_layout_witness :
    ValidTm ⟨7, 45, 17, 9, 4, 124⟩ ∧ (timeToBytes ⟨7, 45, 17, 9, 4, 124⟩ : Int)
      = (1 * 64 + 7) * 2 ^ 24 + (1 * 16 + 11) * 2 ^ 16 + (1 * 64 + 9 * 2 + 1) * 2 ^ 8
          + (24 * 4 + 1) :=
  ⟨by decide, (C2_packed_layout ⟨7, 45, 17, 9, 4, 124⟩ (by decide)).1⟩

/-- C3: for every 32-bit word `w`, encoding the decoded fields gives `w` back; hence two
different 32-bit words never decode to the same field tuple. -/
theorem C3_encode_decode_word (w : Nat) (h : w < 4294967296) :
    timeToBytes (bytesToTime w) = w ∧
      ∀ v, v < 4294967296 → bytesToTime v = bytesToTime w → v = w := by
  refine ⟨timeToBytes_bytesToTime w h, fun v hv hvw => ?_⟩
  rw [← timeToBytes_bytesToTime v hv, hvw, timeToBytes_bytesToTime w h]

theorem C3_encode_decode_word_witness :
    (4294967295 < 4294967296) ∧ timeToBytes (bytesToTime 4294967295) = 4294967295 :=
  ⟨by decide, (C3_encode_decode_word 4294967295 (by decide)).1⟩

/-- C4: a timestamp whose year lies outside 2000..2063 (other fields valid) is not rejected:
`timeToBytes` yields a 32-bit word, and decoding it gives year `2000 + ((year - 2000) mod 64)`
with month, day, hour, minute and second unchanged. -/
theorem C4_year_truncated (t : Tm) (hy : t.tm_year + 1900 < 2000 ∨ 2063 < t.tm_year + 1900)
    (hmon : 0 ≤ t.tm_mon ∧ t.tm_mon ≤ 11) (hday : 1 ≤ t.tm_mday ∧ t.tm_mday ≤ 31)
    (hhour : 0 ≤ t.tm_hour ∧ t.tm_hour ≤ 23) (hmin : 0 ≤ t.tm_min ∧ t.tm_min ≤ 59)
    (hsec : 0 ≤ t.tm_sec ∧ t.tm_sec ≤ 59) :
    timeToBytes t < 4294967296 ∧
      (bytesToTime (timeToBytes t)).tm_year + 1900 = 2000 + (t.tm_year + 1900 - 2000) % 64 ∧
      (bytesToTime (timeToBytes t)).tm_mon = t.tm_mon ∧
      (bytesToTime (timeToBytes t)).tm_mday = t.tm_mday ∧
      (bytesToTime (timeToBytes t)).tm_hour = t.tm_hour ∧
      (bytesToTime (timeToBytes t)).tm_min = t.tm_min ∧
      (bytesToTime (timeToBytes t)).tm_sec = t.tm_sec := by
  rw [bytesToTime_timeToBytes]
  obtain ⟨sec, mi, hr, d, mo, y⟩ := t
  simp only [] at hy hmon hday hhour hmin hsec
  refine ⟨?_, ?_, ?_, ?_, ?_, ?_, ?_⟩
  · rw [timeToBytes_arith]
    simp only []
    omega
  all_goals simp only []
  all_goals omega

theorem C4_year_truncated_witness :
    (bytesToTime (timeToBytes ⟨30, 15, 12, 1, 0, 164⟩)).tm_year + 1900 = 2000 ∧
      (bytesToTime (timeToBytes ⟨30, 15, 12, 1, 0, 164⟩)).tm_mon = 0 :=
  have h := C4_year_truncated ⟨30, 15, 12, 1, 0, 164⟩ (by decide) (by decide) (by decide)
    (by decide) (by decide) (by decide)
  ⟨h.2.1, h.2.2.1⟩

/-! ## Log buffer facts -/

@[simp] theorem active_pushActive (bs : List Nat) (s : State) :
    active (pushActive bs s) = active s ++ bs := by
  simp [active, pushActive]

theorem headerVec_length (r : HeaderInputs) (s : State) : (headerVec r s).length = 20 := by
  simp [headerVec]

theorem sampleBytes_length (d : Int) : (sampleBytes d).length = 2 := by
  simp [sampleBytes]

theorem SameCfg.refl (s : State) : SameCfg s s := ⟨rfl, rfl, rfl, rfl, fun _ _ => rfl⟩

theorem SameCfg.trans {s t u : State} (h1 : SameCfg s t) (h2 : SameCfg t u) : SameCfg s u := by
  obtain ⟨a1, a2, a3, a4, a5⟩ := h1
  obtain ⟨b1, b2, b3, b4, b5⟩ := h2
  refine ⟨b1.trans a1, b2.trans a2, b3.trans a3, b4.trans a4, fun i hi => ?_⟩
  rw [b5 i (by rw [a4]; exact hi), a5 i hi]

theorem sameCfg_pushActive (bs : List Nat) (s : State) : SameCfg s (pushActive bs s) := by
  refine ⟨rfl, rfl, rfl, rfl, fun i hi => ?_⟩
  simp [pushActive, Function.update_noteq hi]

theorem headerVec_congr (r : HeaderInputs) {s t : State} (h : SameCfg s t) :
    headerVec r t = headerVec r s := by
  obtain ⟨a1, a2, a3, -, -⟩ := h
  simp [headerVec, a1, a2, a3]

theorem writeHeader_of_imu (r : HeaderInputs) (s : State) (h : s.m_imu_init = true) :
    writeHeader r s = pushActive (headerVec r s) s := by
  simp [writeHeader, h]

theorem sameCfg_writeHeader (r : HeaderInputs) (s : State) : SameCfg s (writeHeader r s) := by
  unfold writeHeader
  split
  · exact SameCfg.refl s
  · exact sameCfg_pushActive _ s

theorem sameCfg_writeData16 (r : HeaderInputs) (d : Int) (s : State) :
    SameCfg s (writeData16 r d s) := by
  unfold writeData16
  split
  · exact SameCfg.refl s
  · simp only []
    split
    · exact (sameCfg_writeHeader r s).trans (sameCfg_pushActive _ _)
    · exact sameCfg_pushActive _ s

/-- One call of `writeData(int16_t)` with the IMU set up. -/
theorem active_writeData16 (r : HeaderInputs) (d : Int) (s : State) (h : s.m_imu_init = true) :
    active (writeData16 r d s)
      = active s ++ (if (active s).length % 7220 = 0 then headerVec r s else []) ++ sampleBytes d
      := by
  unfold writeData16
  simp only [h, Bool.not_true, Bool.false_eq_true, if_false]
  split
  · rw [writeHeader_of_imu r s h]; simp
  · simp

theorem loop_append (rs : Nat → HeaderInputs) (xs ys : List Int) :
    ∀ (j : Nat) (s : State), writeDataLoop16 rs j (xs ++ ys) s
      = writeDataLoop16 rs (j + xs.length) ys (writeDataLoop16 rs j xs s) := by
  induction xs with
  | nil => intro j s; simp [writeDataLoop16]
  | cons x xs ih =>
    intro j s
    have e : (x :: xs) ++ ys = x :: (xs ++ ys) := rfl
    rw [e]
    simp only [writeDataLoop16, List.length_cons]
    rw [ih]
    congr 1
    omega

theorem sameCfg_loop (rs : Nat → HeaderInputs) (xs : List Int) :
    ∀ (j : Nat) (s : State), SameCfg s (writeDataLoop16 rs j xs s) := by
  induction xs with
  | nil => intro j s; exact SameCfg.refl s
  | cons x xs ih =>
    intro j s
    exact (sameCfg_writeData16 (rs j) x s).trans (ih (j + 1) _)

theorem loop_extends (rs : Nat → HeaderInputs) (xs : List Int) :
    ∀ (j : Nat) (s : State), s.m_imu_init = true →
      ∃ tail, active (writeDataLoop16 rs j xs s) = active s ++ tail := by
  induction xs with
  | nil => intro j s _; exact ⟨[], by simp [writeDataLoop16]⟩
  | cons x xs ih =>
    intro j s h
    have h1 : (writeData16 (rs j) x s).m_imu_init = true :=
      (sameCfg_writeData16 (rs j) x s).1.trans h
    obtain ⟨tail, ht⟩ := ih (j + 1) _ h1
    refine ⟨(if (active s).length % 7220 = 0 then headerVec (rs j) s else [])
      ++ sampleBytes x ++ tail, ?_⟩
    simp only [writeDataLoop16]
    rw [ht, active_writeData16 _ _ _ h]
    simp only [List.append_assoc]

/-- Length of the active vector after `n` values were stored from empty. -/
theorem loop_length (rs : Nat → HeaderInputs) (xs : List Int) :
    ∀ (j n : Nat) (s : State), s.m_imu_init = true →
      (active s).length = 2 * n + 20 * ((n + 3599) / 3600) →
      (active (writeDataLoop16 rs j xs s)).length
        = 2 * (n + xs.length) + 20 * ((n + xs.length + 3599) / 3600) := by
  induction xs with
  | nil => intro j n s _ hl; simpa [writeDataLoop16] using hl
  | cons x xs ih =>
    intro j n s h hl
    have h1 : (writeData16 (rs j) x s).m_imu_init = true :=
      (sameCfg_writeData16 (rs j) x s).1.trans h
    have hl1 : (active (writeData16 (rs j) x s)).length
        = 2 * (n + 1) + 20 * ((n + 1 + 3599) / 3600) := by
      rw [active_writeData16 _ _ _ h]
      simp only [List.length_append, sampleBytes_length]
      split
      · rw [headerVec_length]; omega
      · simp only [List.length_nil]; omega
    have := ih (j + 1) (n + 1) _ h1 hl1
    simp only [writeDataLoop16, List.length_cons]
    rw [this]
    congr 2 <;> omega

/-- Values stored without reaching a block boundary are appended back to back. -/
theorem loop_no_header (rs : Nat → HeaderInputs) (xs : List Int) :
    ∀ (j : Nat) (s : State), s.m_imu_init = true →
      (xs ≠ [] → 1 ≤ (active s).length % 7220 ∧
        (active s).length % 7220 + 2 * xs.length ≤ 7220) →
      active (writeDataLoop16 rs j xs s) = active s ++ xs.flatMap sampleBytes := by
  induction xs with
  | nil => intro j s _ _; simp [writeDataLoop16]
  | cons x xs ih =>
    intro j s h hm
    obtain ⟨hm1, hm2⟩ := hm (by simp)
    have h1 : (writeData16 (rs j) x s).m_imu_init = true :=
      (sameCfg_writeData16 (rs j) x s).1.trans h
    have ha : active (writeData16 (rs j) x s) = active s ++ sampleBytes x := by
      rw [active_writeData16 _ _ _ h, if_neg (by omega)]; simp
    simp only [writeDataLoop16]
    rw [ih (j + 1) _ h1, ha]
    · simp [List.flatMap_cons]
    · intro hne
      have : 0 < xs.length := List.length_pos.mpr hne
      rw [ha]
      simp only [List.length_append, sampleBytes_length, List.length_cons] at hm2 ⊢
      omega

/-- A block, complete or not: header first, then the values back to back. -/
theorem loop_block (rs : Nat → HeaderInputs) (xs : List Int) (j : Nat) (s : State)
    (h : s.m_imu_init = true) (hb : (active s).length % 7220 = 0) (hpos : xs ≠ [])
    (hlen : xs.length ≤ 3600) :
    active (writeDataLoop16 rs j xs s)
      = active s ++ headerVec (rs j) s ++ xs.flatMap sampleBytes := by
  obtain ⟨x, xs, rfl⟩ := List.exists_cons_of_ne_nil hpos
  have h1 : (writeData16 (rs j) x s).m_imu_init = true :=
    (sameCfg_writeData16 (rs j) x s).1.trans h
  have ha : active (writeData16 (rs j) x s) = active s ++ headerVec (rs j) s ++ sampleBytes x := by
    rw [active_writeData16 _ _ _ h, if_pos hb]
  simp only [writeDataLoop16]
  rw [loop_no_header rs xs (j + 1) _ h1, ha]
  · simp [List.flatMap_cons]
  · intro _
    rw [ha]
    simp only [List.length_append, sampleBytes_length, headerVec_length, List.length_cons]
      at hlen ⊢
    omega

theorem flatMap_sampleBytes_length (xs : List Int) :
    (xs.flatMap sampleBytes).length = 2 * xs.length := by
  induction xs with
  | nil => simp
  | cons x xs ih => simp [List.flatMap_cons, sampleBytes_length, ih]; omega

/-- Length after the first `i` values, starting from an empty active vector. -/
theorem loop_take_length (rs : Nat → HeaderInputs) (vals : List Int) (s : State) (i : Nat)
    (himu : s.m_imu_init = true) (hempty : active s = []) (hi : i ≤ vals.length) :
    (active (writeDataLoop16 rs 0 (vals.take i) s)).length
      = 2 * i + 20 * ((i + 3599) / 3600) := by
  have := loop_length rs (vals.take i) 0 0 s himu (by simp [hempty])
  rw [this, List.length_take, Nat.min_eq_left hi]
  simp

/-- The run over all values, cut at call `i`. -/
theorem loop_split (rs : Nat → HeaderInputs) (vals : List Int) (s : State) (i : Nat)
    (hi : i < vals.length) :
    writeDataLoop16 rs 0 vals s
      = writeDataLoop16 rs (i + 1) (vals.drop (i + 1))
          (writeData16 (rs i) (vals.get ⟨i, hi⟩) (writeDataLoop16 rs 0 (vals.take i) s)) := by
  have e : vals = vals.take i ++ (vals.get ⟨i, hi⟩ :: vals.drop (i + 1)) := by
    rw [List.get_eq_getElem, ← List.drop_eq_getElem_cons hi, List.take_append_drop]
  conv_lhs => rw [e]
  rw [loop_append, List.length_take, Nat.min_eq_left (Nat.le_of_lt hi)]
  simp only [Nat.zero_add, writeDataLoop16]

theorem insertsHeaderAt_iff (r : HeaderInputs) (d : Int) (s : State) (o : Nat)
    (h : s.m_imu_init = true) :
    InsertsHeaderAt r d s o ↔ (active s).length = o ∧ (active s).length % 7220 = 0 := by
  unfold InsertsHeaderAt
  rw [active_writeData16 _ _ _ h]
  constructor
  · rintro ⟨h1, h2⟩
    refine ⟨h1, ?_⟩
    by_contra hne
    rw [if_neg hne] at h2
    have := congrArg List.length h2
    simp only [List.length_append, List.length_nil, headerVec_length] at this
    omega
  · rintro ⟨h1, h2⟩
    exact ⟨h1, by rw [if_pos h2]⟩

/-! ## Header placement -/

/-- C5: with the IMU set up and the active vector empty, after `N` calls of
`writeData(int16_t)` the vector has `2*N + 20*ceil(N/3600)` bytes; a call put a header at byte
offset `o` exactly when `o` is a multiple of 7220 below the final length; and the 20 bytes at
each such offset of the final vector are the header captured there. -/
theorem C5_header_offsets (rs : Nat → HeaderInputs) (vals : List Int) (s : State)
    (himu : s.m_imu_init = true) (hempty : active s = []) :
    (active (writeDataLoop16 rs 0 vals s)).length
        = 2 * vals.length + 20 * ((vals.length + 3599) / 3600) ∧
      (∀ o, (∃ i, ∃ hi : i < vals.length,
              InsertsHeaderAt (rs i) (vals.get ⟨i, hi⟩) (writeDataLoop16 rs 0 (vals.take i) s) o)
            ↔ (o % 7220 = 0 ∧ o < (active (writeDataLoop16 rs 0 vals s)).length)) ∧
      (∀ k, k * 7220 < (active (writeDataLoop16 rs 0 vals s)).length →
          ((active (writeDataLoop16 rs 0 vals s)).drop (k * 7220)).take 20
            = headerVec (rs (3600 * k)) s) := by
  have hlen : (active (writeDataLoop16 rs 0 vals s)).length
      = 2 * vals.length + 20 * ((vals.length + 3599) / 3600) := by
    have := loop_length rs vals 0 0 s himu (by simp [hempty])
    rw [this]; simp
  have himu_i : ∀ i, (writeDataLoop16 rs 0 (vals.take i) s).m_imu_init = true := fun i =>
    (sameCfg_loop rs (vals.take i) 0 s).1.trans himu
  refine ⟨hlen, fun o => ⟨?_, ?_⟩, fun k hk => ?_⟩
  · rintro ⟨i, hi, hins⟩
    rw [insertsHeaderAt_iff _ _ _ _ (himu_i i),
      loop_take_length rs vals s i himu hempty (Nat.le_of_lt hi)] at hins
    rw [hlen]
    omega
  · rintro ⟨ho, hlt⟩
    rw [hlen] at hlt
    have hi : 3600 * (o / 7220) < vals.length := by omega
    refine ⟨3600 * (o / 7220), hi, ?_⟩
    rw [insertsHeaderAt_iff _ _ _ _ (himu_i _),
      loop_take_length rs vals s _ himu hempty (Nat.le_of_lt hi)]
    omega
  · rw [hlen] at hk
    have hi : 3600 * k < vals.length := by omega
    have hL := loop_take_length rs vals s (3600 * k) himu hempty (Nat.le_of_lt hi)
    have hcfg := sameCfg_loop rs (vals.take (3600 * k)) 0 s
    have h1 := active_writeData16 (rs (3600 * k)) (vals.get ⟨3600 * k, hi⟩) _ (himu_i (3600 * k))
    rw [if_pos (by rw [hL]; omega), headerVec_congr _ hcfg] at h1
    obtain ⟨tail, ht⟩ := loop_extends rs (vals.drop (3600 * k + 1)) (3600 * k + 1)
      (writeData16 (rs (3600 * k)) (vals.get ⟨3600 * k, hi⟩)
        (writeDataLoop16 rs 0 (vals.take (3600 * k)) s))
      ((sameCfg_writeData16 _ _ _).1.trans (himu_i _))
    rw [loop_split rs vals s (3600 * k) hi, ht, h1]
    have hk7 : k * 7220 = (active (writeDataLoop16 rs 0 (vals.take (3600 * k)) s)).length := by
      rw [hL]; omega
    rw [hk7]
    simp only [List.append_assoc, List.drop_left]
    rw [List.take_append_of_le_length (by rw [headerVec_length]),
      List.take_of_length_le (by rw [headerVec_length])]

theorem C5_header_offsets_witness :
    exampleState.m_imu_init = true ∧ active exampleState = [] ∧
      (active (writeDataLoop16 exampleInputs 0 [1, -2, 300] exampleState)).length
        = 2 * 3 + 20 * ((3 + 3599) / 3600) :=
  ⟨rfl, rfl, (C5_header_offsets exampleInputs [1, -2, 300] exampleState rfl rfl).1⟩

/-- C6 as stated fails: after 600 calls of `writeData(int16_t)` from empty the vector holds
1220 bytes, and call 601 puts no header there but appends its two bytes directly. -/
theorem C6_no_header_after_600 :
    (active (writeDataLoop16 exampleInputs 0 (List.replicate 600 0) exampleState)).length = 1220
      ∧ ¬ ∃ o, InsertsHeaderAt (exampleInputs 600) 0
            (writeDataLoop16 exampleInputs 0 (List.replicate 600 0) exampleState) o := by
  have hl := loop_length exampleInputs (List.replicate 600 0) 0 0 exampleState rfl rfl
  simp only [List.length_replicate] at hl
  have himu : (writeDataLoop16 exampleInputs 0 (List.replicate 600 0) exampleState).m_imu_init
      = true := (sameCfg_loop exampleInputs _ 0 exampleState).1.trans rfl
  refine ⟨by rw [hl], ?_⟩
  rintro ⟨o, ho⟩
  rw [insertsHeaderAt_iff _ _ _ _ himu, hl] at ho
  omega

/-- C6 (amended): starting from an empty active vector, call `i` of `writeData(int16_t)`
puts a header exactly when `i` is a multiple of 3600, and each complete 7220-byte block is one
20-byte header followed by the bytes of 3600 values (600 six-value samples). -/
theorem C6_block_of_3600 (rs : Nat → HeaderInputs) (vals : List Int) (s : State)
    (himu : s.m_imu_init = true) (hempty : active s = []) :
    (∀ i, ∀ hi : i < vals.length,
        (∃ o, InsertsHeaderAt (rs i) (vals.get ⟨i, hi⟩) (writeDataLoop16 rs 0 (vals.take i) s) o)
          ↔ i % 3600 = 0) ∧
      (∀ k, 3600 * (k + 1) ≤ vals.length →
        ((active (writeDataLoop16 rs 0 vals s)).drop (7220 * k)).take 7220
          = headerVec (rs (3600 * k)) s
              ++ ((vals.drop (3600 * k)).take 3600).flatMap sampleBytes) := by
  have himu_i : ∀ i, (writeDataLoop16 rs 0 (vals.take i) s).m_imu_init = true := fun i =>
    (sameCfg_loop rs (vals.take i) 0 s).1.trans himu
  refine ⟨fun i hi => ?_, fun k hk => ?_⟩
  · have hL := loop_take_length rs vals s i himu hempty (Nat.le_of_lt hi)
    constructor
    · rintro ⟨o, ho⟩
      rw [insertsHeaderAt_iff _ _ _ _ (himu_i i), hL] at ho
      omega
    · intro h0
      refine ⟨(active (writeDataLoop16 rs 0 (vals.take i) s)).length, ?_⟩
      rw [insertsHeaderAt_iff _ _ _ _ (himu_i i)]
      exact ⟨rfl, by rw [hL]; omega⟩
  · have e : vals = vals.take (3600 * k)
        ++ ((vals.drop (3600 * k)).take 3600 ++ (vals.drop (3600 * k)).drop 3600) := by
      rw [List.take_append_drop, List.take_append_drop]
    have hL := loop_take_length rs vals s (3600 * k) himu hempty (by omega)
    have hcfg := sameCfg_loop rs (vals.take (3600 * k)) 0 s
    have hblen : ((vals.drop (3600 * k)).take 3600).length = 3600 := by
      rw [List.length_take, List.length_drop]; omega
    have hb := loop_block rs ((vals.drop (3600 * k)).take 3600)
      (0 + (vals.take (3600 * k)).length) (writeDataLoop16 rs 0 (vals.take (3600 * k)) s)
      (himu_i _) (by rw [hL]; omega)
      (by intro h; rw [h] at hblen; simp at hblen) (by omega)
    obtain ⟨tail, ht⟩ := loop_extends rs ((vals.drop (3600 * k)).drop 3600)
      (0 + (vals.take (3600 * k)).length + ((vals.drop (3600 * k)).take 3600).length)
      (writeDataLoop16 rs (0 + (vals.take (3600 * k)).length) ((vals.drop (3600 * k)).take 3600)
        (writeDataLoop16 rs 0 (vals.take (3600 * k)) s))
      ((sameCfg_loop rs _ _ _).1.trans (himu_i _))
    have hidx : 0 + (vals.take (3600 * k)).length = 3600 * k := by
      rw [List.length_take]; omega
    conv_lhs => rw [e]
    rw [loop_append, loop_append, ht, hb, headerVec_congr _ hcfg, hidx]
    have hk7 : 7220 * k = (active (writeDataLoop16 rs 0 (vals.take (3600 * k)) s)).length := by
      rw [hL]; omega
    rw [hk7]
    simp only [List.append_assoc, List.drop_left]
    rw [← List.append_assoc, List.take_left']
    rw [List.length_append, headerVec_length, flatMap_sampleBytes_length, hblen]

theorem C6_block_of_3600_witness :
    exampleState.m_imu_init = true ∧ active exampleState = [] ∧
      ((∃ o, InsertsHeaderAt (exampleInputs 1) (-2)
          (writeDataLoop16 exampleInputs 0 ([1, -2, 300].take 1) exampleState) o) ↔ 1 % 3600 = 0) :=
  ⟨rfl, rfl, (C6_block_of_3600 exampleInputs [1, -2, 300] exampleState rfl rfl).1 1 (by decide)⟩

/-! ## Reading the log back -/

theorem shiftRight_and (w m k : Nat) : (w &&& m) >>> k = (w >>> k) &&& (m >>> k) := by
  apply Nat.eq_of_testBit_eq
  intro i
  simp [Nat.testBit_shiftRight, Nat.testBit_and]

theorem and_255 (n : Nat) : n &&& 255 = n % 256 := Nat.and_pow_two_sub_one_eq_mod n 8

theorem byte_24 (w : Nat) : ((w &&& 0xFF000000) >>> 24) % 256 = w / 16777216 % 256 := by
  rw [shiftRight_and, show (0xFF000000 >>> 24 : Nat) = 255 by decide, and_255,
    Nat.shiftRight_eq_div_pow]
  norm_num

theorem byte_16 (w : Nat) : ((w &&& 0xFF0000) >>> 16) % 256 = w / 65536 % 256 := by
  rw [shiftRight_and, show (0xFF0000 >>> 16 : Nat) = 255 by decide, and_255,
    Nat.shiftRight_eq_div_pow]
  norm_num

theorem byte_8 (w : Nat) : ((w &&& 0xFF00) >>> 8) % 256 = w / 256 % 256 := by
  rw [shiftRight_and, show (0xFF00 >>> 8 : Nat) = 255 by decide, and_255,
    Nat.shiftRight_eq_div_pow]
  norm_num

theorem byte_0 (w : Nat) : (w &&& 0xFF) % 256 = w % 256 := by
  rw [and_255]; omega

/-- The two bytes of a value are its 16-bit two's-complement pattern, high byte first. -/
theorem sampleBytes_eq (v : Int) : sampleBytes v = be16 ((v % 65536).toNat) := by
  unfold sampleBytes be16 cand
  rw [byte_8, byte_0]
  unfold toU32
  congr 1
  · omega
  · congr 1; omega

theorem headerVec_eq (r : HeaderInputs) (s : State) :
    headerVec r s = be32 (timeToBytes r.time)
      ++ be16 (if s.m_ldc_init then r.adc0 % 65536 else 0)
      ++ be16 (if s.m_ldc_init then r.adc1 % 65536 else 0)
      ++ be32 (if s.m_imu_init && s.m_env_init then toU32 r.temp else 0)
      ++ be32 (if s.m_imu_init && s.m_env_init then r.press % 4294967296 else 0)
      ++ be32 (if s.m_imu_init && s.m_env_init then r.hum % 4294967296 else 0) := by
  unfold headerVec
  simp only [byte_24, byte_16, byte_8, byte_0, be32, be16, List.cons_append, List.nil_append]

theorem strip_append (xs ys : List Nat) :
    ∀ off, stripHeadersFrom off (xs ++ ys)
      = stripHeadersFrom off xs ++ stripHeadersFrom (off + xs.length) ys := by
  induction xs with
  | nil => intro off; simp [stripHeadersFrom]
  | cons x xs ih =>
    intro off
    have e : (x :: xs) ++ ys = x :: (xs ++ ys) := rfl
    rw [e]
    simp only [stripHeadersFrom, List.length_cons]
    rw [ih, show off + 1 + xs.length = off + (xs.length + 1) by omega]
    split <;> simp

theorem strip_in_header (h : List Nat) :
    ∀ off, off % 7220 + h.length ≤ 20 → stripHeadersFrom off h = [] := by
  induction h with
  | nil => intro off _; simp [stripHeadersFrom]
  | cons x xs ih =>
    intro off hle
    simp only [List.length_cons] at hle
    simp only [stripHeadersFrom]
    rw [if_pos (by omega)]
    exact ih (off + 1) (by omega)

theorem strip_sample (bs : List Nat) (off : Nat) (hb : bs.length = 2) (h : 20 ≤ off % 7220)
    (h2 : off % 7220 + 1 < 7220) : stripHeadersFrom off bs = bs := by
  match bs, hb with
  | [a, b], _ =>
    simp only [stripHeadersFrom]
    rw [if_neg (by omega), if_neg (by omega)]

/-- Removing the header positions from the active vector leaves the bytes of the values. -/
theorem loop_strip (rs : Nat → HeaderInputs) (xs : List Int) :
    ∀ (j n : Nat) (s : State), s.m_imu_init = true →
      (active s).length = 2 * n + 20 * ((n + 3599) / 3600) →
      stripHeaders (active (writeDataLoop16 rs j xs s))
        = stripHeaders (active s) ++ xs.flatMap sampleBytes := by
  induction xs with
  | nil => intro j n s _ _; simp [writeDataLoop16]
  | cons x xs ih =>
    intro j n s h hl
    have h1 : (writeData16 (rs j) x s).m_imu_init = true :=
      (sameCfg_writeData16 (rs j) x s).1.trans h
    have hl1 : (active (writeData16 (rs j) x s)).length
        = 2 * (n + 1) + 20 * ((n + 1 + 3599) / 3600) := by
      have := loop_length rs [x] j n s h hl
      simpa [writeDataLoop16] using this
    have hs1 : stripHeaders (active (writeData16 (rs j) x s))
        = stripHeaders (active s) ++ sampleBytes x := by
      rw [active_writeData16 _ _ _ h]
      unfold stripHeaders
      rw [strip_append, strip_append]
      simp only [Nat.zero_add, List.length_append]
      by_cases hb : (active s).length % 7220 = 0
      · rw [if_pos hb,
          strip_in_header (headerVec (rs j) s) (active s).length
            (by rw [headerVec_length]; omega),
          strip_sample (sampleBytes x) ((active s).length + (headerVec (rs j) s).length)
            (sampleBytes_length x) (by rw [headerVec_length]; omega)
            (by rw [headerVec_length]; omega)]
        simp
      · rw [if_neg hb, show stripHeadersFrom (active s).length [] = [] from rfl]
        simp only [List.length_nil, List.append_nil, Nat.add_zero]
        rw [strip_sample (sampleBytes x) (active s).length (sampleBytes_length x) (by omega)
          (by omega)]
    simp only [writeDataLoop16]
    rw [ih (j + 1) (n + 1) _ h1 hl1, hs1]
    simp [List.flatMap_cons]

theorem int16OfBytes_sample (v : Int) (h : -32768 ≤ v ∧ v ≤ 32767) :
    int16OfBytes ((v % 65536).toNat / 256 % 256) ((v % 65536).toNat % 256) = v := by
  unfold int16OfBytes
  split <;> omega

theorem readInt16BE_sampleBytes (L : List Int) (h : ∀ v ∈ L, -32768 ≤ v ∧ v ≤ 32767) :
    readInt16BE (L.flatMap sampleBytes) = L := by
  induction L with
  | nil => simp [readInt16BE]
  | cons v L ih =>
    rw [List.flatMap_cons, sampleBytes_eq]
    change int16OfBytes ((v % 65536).toNat / 256 % 256) ((v % 65536).toNat % 256)
      :: readInt16BE (L.flatMap sampleBytes) = v :: L
    rw [int16OfBytes_sample v (h v (by simp)), ih (fun u hu => h u (by simp [hu]))]

/-- C7: for every list `L` of 16-bit values appended with `writeData(std::vector<int16_t>)`
to an empty active vector (IMU set up), removing the 20 bytes at every offset that is a
multiple of 7220 leaves, for each value in order, the high then the low byte of its two's
complement pattern, and reading those pairs as big-endian signed 16-bit numbers gives `L`. -/
theorem C7_log_decodable (rs : Nat → HeaderInputs) (L : List Int) (s : State)
    (himu : s.m_imu_init = true) (hempty : active s = [])
    (hrange : ∀ v ∈ L, -32768 ≤ v ∧ v ≤ 32767) :
    stripHeaders (active (writeDataVec16 rs L s))
        = L.flatMap (fun v => be16 ((v % 65536).toNat)) ∧
      readInt16BE (stripHeaders (active (writeDataVec16 rs L s))) = L := by
  have hs : stripHeaders (active (writeDataVec16 rs L s)) = L.flatMap sampleBytes := by
    unfold writeDataVec16
    simp only [himu, Bool.not_true, Bool.false_eq_true, if_false]
    rw [loop_strip rs L 0 0 s himu (by simp [hempty]), hempty]
    simp [stripHeaders, stripHeadersFrom]
  refine ⟨?_, ?_⟩
  · rw [hs]
    congr 1
    funext v
    exact sampleBytes_eq v
  · rw [hs, readInt16BE_sampleBytes L hrange]

theorem C7_log_decodable_witness :
    exampleState.m_imu_init = true ∧ active exampleState = [] ∧
      (∀ v ∈ [1, -2, 300, -32768, 32767], -32768 ≤ v ∧ v ≤ 32767) ∧
      readInt16BE (stripHeaders (active
        (writeDataVec16 exampleInputs [1, -2, 300, -32768, 32767] exampleState)))
        = [1, -2, 300, -32768, 32767] :=
  ⟨rfl, rfl, by decide,
    (C7_log_decodable exampleInputs [1, -2, 300, -32768, 32767] exampleState rfl rfl
      (by decide)).2⟩

/-- C8: when at least one of the IMU, light-sensor or environmental flags is set,
`writeHeader` appends exactly 20 bytes after the existing content of the active vector: the
packed time word, the two light values (2 bytes each), temperature, pressure and humidity
(4 bytes each), all most significant byte first; the light values are zero unless the light
sensor is set up, the three environmental values are zero unless the IMU and its
environmental part are set up; nothing else in the buffers changes. When no flag is set the
state is unchanged. The environmental flag is only ever set by `imu_init`, together with the
IMU flag; in such states the environmental values are zero exactly when the environmental
flag is off. -/
theorem C8_writeHeader (r : HeaderInputs) (s : State) :
    ((s.m_imu_init = true ∨ s.m_ldc_init = true ∨ s.m_env_init = true) →
      active (writeHeader r s) = active s ++
        (be32 (timeToBytes r.time)
          ++ be16 (if s.m_ldc_init then r.adc0 % 65536 else 0)
          ++ be16 (if s.m_ldc_init then r.adc1 % 65536 else 0)
          ++ be32 (if s.m_imu_init && s.m_env_init then toU32 r.temp else 0)
          ++ be32 (if s.m_imu_init && s.m_env_init then r.press % 4294967296 else 0)
          ++ be32 (if s.m_imu_init && s.m_env_init then r.hum % 4294967296 else 0)) ∧
      (active (writeHeader r s)).length = (active s).length + 20 ∧
      SameCfg s (writeHeader r s)) ∧
    ((s.m_imu_init = false ∧ s.m_ldc_init = false ∧ s.m_env_init = false) →
      writeHeader r s = s) ∧
    ((s.m_env_init = true → s.m_imu_init = true) →
      (s.m_imu_init && s.m_env_init) = s.m_env_init) := by
  refine ⟨fun h => ?_, fun h => ?_, fun h => ?_⟩
  rotate_left 2
  · cases he : s.m_env_init
    · simp
    · simp [h he]
  · have hw : writeHeader r s = pushActive (headerVec r s) s := by
      unfold writeHeader
      rcases h with h | h | h <;> simp [h]
    refine ⟨?_, ?_, sameCfg_writeHeader r s⟩
    · rw [hw, active_pushActive, headerVec_eq]
    · rw [hw, active_pushActive, List.length_append, headerVec_length]
  · obtain ⟨h1, h2, h3⟩ := h
    simp [writeHeader, h1, h2, h3]

theorem C8_writeHeader_witness :
    (ldc_init (platypus 0)).m_ldc_init = true ∧
      active (writeHeader (exampleInputs 258) (ldc_init (platypus 0)))
        = [0, 0, 66, 96, 1, 2, 0, 2, 0, 0, 0, 0, 0, 0, 0, 0, 0, 0, 0, 0] :=
  ⟨rfl, ((C8_writeHeader (exampleInputs 258) (ldc_init (platypus 0))).1 (Or.inr (Or.inl rfl))).1⟩

/-! ## Tap handling -/

theorem gt_one_or_lt_neg_one_iff (x : ℚ) : (x > 1 ∨ x < -1) ↔ |x| > 1 := by
  change (x > 1 ∨ x < -1) ↔ 1 < |x|
  rw [lt_abs]
  constructor
  · rintro (h | h)
    · exact Or.inl h
    · exact Or.inr (by linarith)
  · rintro (h | h)
    · exact Or.inl h
    · exact Or.inr (by linarith)

/-- The three range checks of `tap_event`, in terms of absolute values. -/
theorem rejects_iff (x y z : ℚ) :
    ((x > 1 ∨ x < -1) ∨ (y > 1 ∨ y < -1) ∨ z < 9) ↔ (|x| > 1 ∨ |y| > 1 ∨ z < 9) := by
  rw [gt_one_or_lt_neg_one_iff, gt_one_or_lt_neg_one_iff]

theorem tap_event_rejected (x y z : ℚ) (s : State) (h : |x| > 1 ∨ |y| > 1 ∨ z < 9) :
    tap_event x y z s = (DisplayStates.NOCHANGE, s) := by
  rw [← rejects_iff] at h
  unfold tap_event
  by_cases hx : x > 1 ∨ x < -1
  · rw [if_pos hx]
  · rw [if_neg hx]
    by_cases hy : y > 1 ∨ y < -1
    · rw [if_pos hy]
    · rw [if_neg hy]
      have hz : z < 9 := by
        rcases h with h | h | h
        · exact absurd h hx
        · exact absurd h hy
        · exact h
      rw [if_pos hz]

theorem tap_event_accepted (x y z : ℚ) (s : State) (h : ¬ (|x| > 1 ∨ |y| > 1 ∨ z < 9)) :
    tap_event x y z s
      = (tapRing s.m_dsp_state, { s with m_dsp_state := tapRing s.m_dsp_state }) := by
  rw [← rejects_iff] at h
  have hx : ¬ (x > 1 ∨ x < -1) := fun c => h (Or.inl c)
  have hy : ¬ (y > 1 ∨ y < -1) := fun c => h (Or.inr (Or.inl c))
  have hz : ¬ z < 9 := fun c => h (Or.inr (Or.inr c))
  unfold tap_event
  rw [if_neg hx, if_neg hy, if_neg hz]
  obtain ⟨a1, a2, a3, a4, a5, a6, a7, a8, a9, a10, a11, d, a13, a14, a15, a16⟩ := s
  cases d <;> rfl

theorem accepted_iff (x y z : ℚ) : Accepted x y z ↔ ¬ (|x| > 1 ∨ |y| > 1 ∨ z < 9) := by
  unfold Accepted
  simp only [gt_iff_lt, not_or, not_lt]

theorem tapSequence_accepted (qs : List (ℚ × ℚ × ℚ)) :
    ∀ s : State, (∀ q ∈ qs, Accepted q.1 q.2.1 q.2.2) →
      (tapSequence qs s).1 = ringFrom qs.length s.m_dsp_state := by
  induction qs with
  | nil => intro s _; rfl
  | cons q qs ih =>
    intro s h
    obtain ⟨x, y, z⟩ := q
    have hq : Accepted x y z := h (x, y, z) (by simp)
    have ht := tap_event_accepted x y z s ((accepted_iff x y z).mp hq)
    simp only [tapSequence, List.length_cons, ringFrom]
    rw [ih _ (fun q hq => h q (by simp [hq])), ht]

/-- C9: for every display state other than the sentinel and every reading `(x, y, z)`: if
`|x| > 1` or `|y| > 1` or `z < 9` then `tap_event` returns `NOCHANGE` and the state is
unchanged; otherwise it returns the display state after the tap, which is not `NOCHANGE`. -/
theorem C9_tap_range_check (x y z : ℚ) (s : State)
    (hs : s.m_dsp_state ≠ DisplayStates.NOCHANGE) :
    ((|x| > 1 ∨ |y| > 1 ∨ z < 9) → tap_event x y z s = (DisplayStates.NOCHANGE, s)) ∧
      (¬ (|x| > 1 ∨ |y| > 1 ∨ z < 9) →
        (tap_event x y z s).1 = (tap_event x y z s).2.m_dsp_state ∧
          (tap_event x y z s).1 ≠ DisplayStates.NOCHANGE) := by
  refine ⟨tap_event_rejected x y z s, fun h => ?_⟩
  rw [tap_event_accepted x y z s h]
  refine ⟨rfl, ?_⟩
  simp only []
  revert hs
  cases s.m_dsp_state <;> simp [tapRing]

theorem C9_tap_range_check_witness :
    ({ exampleState with m_dsp_state := DisplayStates.OFF } : State).m_dsp_state
        ≠ DisplayStates.NOCHANGE ∧
      (tap_event 2 0 (49 / 5) { exampleState with m_dsp_state := DisplayStates.OFF }).1
        = DisplayStates.NOCHANGE ∧
      (tap_event (1 / 5) (-3 / 10) (49 / 5)
          { exampleState with m_dsp_state := DisplayStates.OFF }).1 = DisplayStates.CLOCK ∧
      (tap_event 1 (-1) 9 { exampleState with m_dsp_state := DisplayStates.OFF }).1
        ≠ DisplayStates.NOCHANGE :=
  ⟨by decide,
    congrArg Prod.fst ((C9_tap_range_check 2 0 (49 / 5)
      { exampleState with m_dsp_state := DisplayStates.OFF } (by decide)).1
        (Or.inl (by norm_num))),
    by rw [tap_event_accepted _ _ _ _ (by norm_num [abs_le, abs_lt, abs_of_pos, abs_of_neg])]; rfl,
    ((C9_tap_range_check 1 (-1) 9
      { exampleState with m_dsp_state := DisplayStates.OFF } (by decide)).2
        (by norm_num)).2⟩

/-- C10: for an accepted tap the new display state is the ring step of the current one
(Off to Clock, Clock to MenuBack, MenuBack to MenuWifi, MenuWifi to MenuBt, MenuBt to
MenuSave, MenuSave to MenuStats, MenuStats to MenuConfig, MenuConfig, Stats and Config to
MenuBack, Init and Idle unchanged), which is also the returned value, and nothing else in the
state changes; six accepted taps from MenuBack visit MenuWifi, MenuBt, MenuSave, MenuStats,
MenuConfig, MenuBack in that order; the new state is never Off, Stats or Config, and it is
Init or Idle only when the state did not change. -/
theorem C10_tap_ring (x y z : ℚ) (s : State) (hacc : Accepted x y z) :
    tap_event x y z s
        = (tapRing s.m_dsp_state, { s with m_dsp_state := tapRing s.m_dsp_state }) ∧
      (∀ qs : List (ℚ × ℚ × ℚ), qs.length = 6 → (∀ q ∈ qs, Accepted q.1 q.2.1 q.2.2) →
        s.m_dsp_state = DisplayStates.MENU_BACK →
        (tapSequence qs s).1 = [DisplayStates.MENU_WIFI, DisplayStates.MENU_BT,
          DisplayStates.MENU_SAVE, DisplayStates.MENU_STATS, DisplayStates.MENU_CONFIG,
          DisplayStates.MENU_BACK]) ∧
      ((tap_event x y z s).2.m_dsp_state ≠ DisplayStates.OFF ∧
        (tap_event x y z s).2.m_dsp_state ≠ DisplayStates.STATS ∧
        (tap_event x y z s).2.m_dsp_state ≠ DisplayStates.CONFIG) ∧
      ((tap_event x y z s).2.m_dsp_state ≠ s.m_dsp_state →
        (tap_event x y z s).2.m_dsp_state ≠ DisplayStates.INIT ∧
        (tap_event x y z s).2.m_dsp_state ≠ DisplayStates.IDLE) := by
  have ht := tap_event_accepted x y z s ((accepted_iff x y z).mp hacc)
  refine ⟨ht, fun qs hlen hq hb => ?_, ?_, ?_⟩
  · rw [tapSequence_accepted qs s hq, hlen, hb]
    rfl
  · rw [ht]
    simp only []
    cases s.m_dsp_state <;> simp [tapRing]
  · rw [ht]
    simp only []
    cases s.m_dsp_state <;> simp [tapRing]

theorem C10_tap_ring_witness :
    Accepted (1 / 5) (-3 / 10) (49 / 5) ∧
      (tap_event (1 / 5) (-3 / 10) (49 / 5)
          { exampleState with m_dsp_state := DisplayStates.MENU_CONFIG }).1
        = DisplayStates.MENU_BACK :=
  have h : Accepted (1 / 5) (-3 / 10) (49 / 5) := by
    unfold Accepted
    refine ⟨abs_le.mpr ⟨by norm_num, by norm_num⟩, abs_le.mpr ⟨by norm_num, by norm_num⟩,
      by norm_num⟩
  ⟨h, congrArg Prod.fst (C10_tap_ring (1 / 5) (-3 / 10) (49 / 5)
    { exampleState with m_dsp_state := DisplayStates.MENU_CONFIG } h).1⟩


/-! ## Log directory facts -/

theorem core_small (f n : Nat) (acc : List Char) (h : n < 10) :
    Nat.toDigitsCore 10 (f + 1) n acc = Nat.digitChar n :: acc := by
  have h0 : n / 10 = 0 := by omega
  have h1 : n % 10 = n := by omega
  simp [Nat.toDigitsCore, h0, h1]

theorem core_big (f n : Nat) (acc : List Char) (h : 10 ≤ n) :
    Nat.toDigitsCore 10 (f + 1) n acc
      = Nat.toDigitsCore 10 f (n / 10) (Nat.digitChar (n % 10) :: acc) := by
  have h0 : n / 10 ≠ 0 := by omega
  simp [Nat.toDigitsCore, h0]

/-- Below 10000 the number is written with exactly four digits. -/
theorem fmt4_lt (n : Nat) (h : n < 10000) :
    fmt4 n = [Nat.digitChar (n / 1000), Nat.digitChar (n / 100 % 10),
      Nat.digitChar (n / 10 % 10), Nat.digitChar (n % 10)] := by
  unfold fmt4 Nat.toDigits
  by_cases h1 : n < 10
  · rw [core_small _ _ _ h1]
    have a : n / 1000 = 0 := by omega
    have b : n / 100 % 10 = 0 := by omega
    have c : n / 10 % 10 = 0 := by omega
    have d : n % 10 = n := by omega
    rw [a, b, c, d]
    rfl
  · obtain ⟨f, rfl⟩ : ∃ f, n = f + 1 := ⟨n - 1, by omega⟩
    rw [core_big _ _ _ (by omega)]
    by_cases h2 : f + 1 < 100
    · obtain ⟨g, rfl⟩ : ∃ g, f = g + 1 := ⟨f - 1, by omega⟩
      rw [core_small _ _ _ (by omega)]
      have a : (g + 1 + 1) / 1000 = 0 := by omega
      have b : (g + 1 + 1) / 100 % 10 = 0 := by omega
      have c : (g + 1 + 1) / 10 % 10 = (g + 1 + 1) / 10 := by omega
      rw [a, b, c]
      rfl
    · obtain ⟨g, rfl⟩ : ∃ g, f = g + 1 := ⟨f - 1, by omega⟩
      rw [core_big _ _ _ (by omega)]
      by_cases h3 : g + 1 + 1 < 1000
      · obtain ⟨e, rfl⟩ : ∃ e, g = e + 1 := ⟨g - 1, by omega⟩
        rw [core_small _ _ _ (by omega)]
        have a : (e + 1 + 1 + 1) / 1000 = 0 := by omega
        have b : (e + 1 + 1 + 1) / 100 % 10 = (e + 1 + 1 + 1) / 10 / 10 := by omega
        have c : (e + 1 + 1 + 1) / 10 % 10 = (e + 1 + 1 + 1) / 10 % 10 := rfl
        rw [a, b]
        rfl
      · obtain ⟨e, rfl⟩ : ∃ e, g = e + 1 := ⟨g - 1, by omega⟩
        rw [core_big _ _ _ (by omega)]
        obtain ⟨c, rfl⟩ : ∃ c, e = c + 1 := ⟨e - 1, by omega⟩
        rw [core_small _ _ _ (by omega)]
        have a : (c + 1 + 1 + 1 + 1) / 1000 = (c + 1 + 1 + 1 + 1) / 10 / 10 / 10 := by omega
        have b : (c + 1 + 1 + 1 + 1) / 100 % 10 = (c + 1 + 1 + 1 + 1) / 10 / 10 % 10 := by
          omega
        rw [a, b]
        rfl

theorem digitChar_facts : ∀ a < 10,
    isSpaceC (Nat.digitChar a) = false ∧ Nat.digitChar a ≠ '-' ∧ Nat.digitChar a ≠ '+' ∧
      (Nat.digitChar a).isDigit = true ∧ (Nat.digitChar a).toNat - 48 = a ∧
      Nat.digitChar a ≠ 'd' := by
  decide

/-- Parsing four digit characters. -/
theorem stoi_four (a b c d : Nat) (ha : a < 10) (hb : b < 10) (hc : c < 10) (hd : d < 10) :
    stoi [Nat.digitChar a, Nat.digitChar b, Nat.digitChar c, Nat.digitChar d]
      = some ((1000 * a + 100 * b + 10 * c + d : Nat) : Int) := by
  obtain ⟨a1, a2, a3, a4, a5, -⟩ := digitChar_facts a ha
  obtain ⟨-, -, -, b4, b5, -⟩ := digitChar_facts b hb
  obtain ⟨-, -, -, c4, c5, -⟩ := digitChar_facts c hc
  obtain ⟨-, -, -, d4, d5, -⟩ := digitChar_facts d hd
  simp only [stoi, List.dropWhile, a1, List.head?, a2, a3, false_or, if_false,
    List.takeWhile, a4, b4, c4, d4, List.isEmpty, List.foldl, a5, b5, c5, d5]
  simp [a2]
  ring

theorem findStr_datalog (rest : List Char) : findStr datalogChars (datalogChars ++ rest) = some 0 := by
  simp [findStr, datalogChars, List.isPrefixOf]

/-- The scan reads the number back from a name with four digits. -/
theorem stoi_logName (n : Nat) (h : n < 10000) :
    stoi (((logName n).drop (0 + 7)).take 4) = some (n : Int) := by
  have e : ((logName n).drop (0 + 7)).take 4 = fmt4 n := by
    simp [logName, datalogChars, binChars, fmt4_lt n h]
  rw [e, fmt4_lt n h, stoi_four _ _ _ _ (by omega) (by omega) (by omega) (by omega)]
  congr 2
  omega

theorem findStr_logName (n : Nat) : findStr datalogChars (logName n) = some 0 := by
  unfold logName
  rw [List.append_assoc]
  exact findStr_datalog _

theorem scanFrom_logName (f : Int) (n : Nat) (h : n < 10000) (rest : List (List Char)) :
    scanFrom f (logName n :: rest)
      = scanFrom (if (n : Int) + 1 > f then (n : Int) + 1 else f) rest := by
  simp only [scanFrom, findStr_logName, stoi_logName n h]

theorem scanFrom_skip (f : Int) (e : List Char) (h : findStr datalogChars e = none)
    (rest : List (List Char)) : scanFrom f (e :: rest) = scanFrom f rest := by
  simp only [scanFrom, h]

theorem scanFrom_10000 (f : Int) (rest : List (List Char)) :
    scanFrom f (logName 10000 :: rest)
      = scanFrom (if (1000 : Int) + 1 > f then (1000 : Int) + 1 else f) rest := by
  have e : stoi (((logName 10000).drop (0 + 7)).take 4) = some 1000 := by decide
  simp only [scanFrom, findStr_logName, e]

theorem scanFrom_append (xs ys : List (List Char)) :
    ∀ f : Int, scanFrom f (xs ++ ys) = (scanFrom f xs).bind (fun g => scanFrom g ys) := by
  induction xs with
  | nil => intro f; simp [scanFrom]
  | cons x xs ih =>
    intro f
    have e : (x :: xs) ++ ys = x :: (xs ++ ys) := rfl
    rw [e]
    simp only [scanFrom]
    cases findStr datalogChars x with
    | none => simp only [ih]
    | some pos =>
      simp only []
      cases stoi (List.take 4 (List.drop (pos + 7) x)) with
      | none => simp
      | some v => simp only [ih]

/-- A directory whose `datalog` entries all carry four digits: the scan yields one more than
the largest number present, or the start value. -/
theorem scanFrom_spec (names : List (List Char)) :
    ∀ f : Nat,
      (∀ e ∈ names, (∃ i, i < 10000 ∧ e = logName i) ∨ findStr datalogChars e = none) →
      ∃ r : Nat, scanFrom (f : Int) names = some (r : Int) ∧ f ≤ r ∧
        (∀ i, i < 10000 → logName i ∈ names → i < r) ∧
        (r = f ∨ ∃ i, i < 10000 ∧ logName i ∈ names ∧ r = i + 1) := by
  induction names with
  | nil => intro f _; exact ⟨f, rfl, le_refl f, by simp, Or.inl rfl⟩
  | cons e names ih =>
    intro f h
    have hrest : ∀ e ∈ names, (∃ i, i < 10000 ∧ e = logName i) ∨ findStr datalogChars e = none :=
      fun e he => h e (List.mem_cons_of_mem _ he)
    rcases h e (List.mem_cons_self _ _) with ⟨i, hi, rfl⟩ | hno
    · rw [scanFrom_logName _ _ hi]
      have hf : (if (i : Int) + 1 > (f : Int) then (i : Int) + 1 else (f : Int))
          = ((max (i + 1) f : Nat) : Int) := by
        split <;> omega
      rw [hf]
      obtain ⟨r, hr, hle, hall, hex⟩ := ih (max (i + 1) f) hrest
      refine ⟨r, hr, by omega, ?_, ?_⟩
      · intro j hj hmem
        rcases List.mem_cons.mp hmem with hji | hjm
        · have : (j : Int) = (i : Int) := by
            have h1 := stoi_logName j hj
            rw [hji, stoi_logName i hi] at h1
            exact (Option.some.inj h1).symm
          omega
        · exact hall j hj hjm
      · rcases hex with hr0 | ⟨j, hj, hjm, hrj⟩
        · by_cases hc : i + 1 ≤ f
          · left; omega
          · right
            exact ⟨i, hi, List.mem_cons_self _ _, by omega⟩
        · right
          exact ⟨j, hj, List.mem_cons_of_mem _ hjm, hrj⟩
    · rw [scanFrom_skip _ _ hno]
      obtain ⟨r, hr, hle, hall, hex⟩ := ih f hrest
      refine ⟨r, hr, hle, ?_, ?_⟩
      · intro j hj hmem
        rcases List.mem_cons.mp hmem with hji | hjm
        · rw [← hji, findStr_logName] at hno
          exact absurd hno (by simp)
        · exact hall j hj hjm
      · rcases hex with hr0 | ⟨j, hj, hjm, hrj⟩
        · exact Or.inl hr0
        · exact Or.inr ⟨j, hj, List.mem_cons_of_mem _ hjm, hrj⟩

/-! ## Flush facts -/

theorem fileNames_appendFile (fs : List LogFile) (name : List Char) (bs : List Nat) :
    fileNames (appendFile fs name bs)
      = if name ∈ fileNames fs then fileNames fs else fileNames fs ++ [name] := by
  induction fs with
  | nil => simp [appendFile, fileNames]
  | cons f fs ih =>
    unfold appendFile
    by_cases h : f.name = name
    · simp [h, fileNames]
    · have hne : ¬ name = f.name := fun c => h c.symm
      rw [if_neg h]
      simp only [fileNames, List.map_cons, List.mem_cons, hne, false_or] at ih ⊢
      rw [ih]
      split <;> simp

theorem fileContent_appendFile_same (fs : List LogFile) (name : List Char) (bs : List Nat) :
    fileContent (appendFile fs name bs) name
      = some ((fileContent fs name).getD [] ++ bs) := by
  induction fs with
  | nil => simp [appendFile, fileContent]
  | cons f fs ih =>
    unfold appendFile
    by_cases h : f.name = name
    · simp [h, fileContent]
    · rw [if_neg h]
      simp only [fileContent, if_neg h]
      exact ih

theorem fileContent_appendFile_other (fs : List LogFile) (name other : List Char)
    (bs : List Nat) (hne : other ≠ name) :
    fileContent (appendFile fs name bs) other = fileContent fs other := by
  induction fs with
  | nil =>
    have : ¬ name = other := fun c => hne c.symm
    simp [appendFile, fileContent, this]
  | cons f fs ih =>
    unfold appendFile
    by_cases h : f.name = name
    · have h2 : ¬ f.name = other := fun c => hne (c.symm.trans h)
      have h3 : ¬ name = other := fun c => hne c.symm
      simp [h, fileContent, h3]
    · rw [if_neg h]
      simp only [fileContent]
      rw [ih]

theorem fileContent_none_of_not_mem (fs : List LogFile) (name : List Char)
    (h : name ∉ fileNames fs) : fileContent fs name = none := by
  induction fs with
  | nil => rfl
  | cons f fs ih =>
    simp only [fileNames, List.map_cons, List.mem_cons, not_or] at h
    have h1 : ¬ f.name = name := fun c => h.1 c.symm
    simp only [fileContent, if_neg h1]
    exact ih h.2

theorem scanDir_spec (names : List (List Char)) (h : FourDigitDir names) :
    ∃ r : Nat, scanDir names = some (r : Int) ∧
      (∀ i, i < 10000 → logName i ∈ names → i < r) ∧
      (r = 0 ∨ ∃ i, i < 10000 ∧ logName i ∈ names ∧ r = i + 1) := by
  obtain ⟨r, hr, -, hall, hex⟩ := scanFrom_spec names 0 h
  exact ⟨r, hr, hall, hex⟩

theorem logName_length (n : Nat) (h : n < 10000) : (logName n).length = 15 := by
  simp [logName, fmt4_lt n h, datalogChars, binChars]

/-- In a directory of four-digit names the chosen file does not exist yet. -/
theorem chosen_is_new (names : List (List Char)) (h : FourDigitDir names) (r : Nat)
    (hall : ∀ i, i < 10000 → logName i ∈ names → i < r)
    (hex : r = 0 ∨ ∃ i, i < 10000 ∧ logName i ∈ names ∧ r = i + 1) :
    logName r ∉ names := by
  intro hmem
  by_cases hr : r < 10000
  · exact absurd (hall r hr hmem) (lt_irrefl r)
  · have hr' : r = 10000 := by
      rcases hex with h0 | ⟨i, hi, -, hri⟩ <;> omega
    subst hr'
    rcases h _ hmem with ⟨i, hi, he⟩ | hno
    · have := congrArg List.length he
      rw [logName_length i hi] at this
      exact absurd this (by decide)
    · rw [findStr_logName] at hno
      exact absurd hno (by simp)

theorem writeDataToFlash_of_scan (idx : Fin 2) (s : State) (fs : List LogFile) (r : Nat)
    (himu : s.m_imu_init = true) (hr : scanDir (fileNames fs) = some (r : Int)) :
    writeDataToFlash idx s fs
      = some ({ s with m_data_memory := Function.update s.m_data_memory idx [],
                       m_saving := false },
          appendFile fs (logName r) (s.m_data_memory idx)) := by
  simp [writeDataToFlash, himu, flushFinish, flushBegin, hr]

/-! ## Log files -/

/-- C12: in a log directory whose `datalog` entries are names `datalogNNNN.bin`, the flush
writes to the file whose number is one more than the largest number present (0 when there is
none); its name is `datalog`, the number padded with zeros to four digits, and `.bin`. -/
theorem C12_next_file (fs : List LogFile) (s : State) (idx : Fin 2)
    (himu : s.m_imu_init = true) (hdir : FourDigitDir (fileNames fs)) :
    ∃ r : Nat, scanDir (fileNames fs) = some (r : Int) ∧
      (∀ i, i < 10000 → logName i ∈ fileNames fs → i < r) ∧
      (r = 0 ∨ ∃ i, i < 10000 ∧ logName i ∈ fileNames fs ∧ r = i + 1) ∧
      (∃ s1, writeDataToFlash idx s fs
          = some (s1, appendFile fs (logName r) (s.m_data_memory idx))) ∧
      logName r = datalogChars ++ fmt4 r ++ binChars ∧
      (r < 10000 → fmt4 r = [Nat.digitChar (r / 1000), Nat.digitChar (r / 100 % 10),
        Nat.digitChar (r / 10 % 10), Nat.digitChar (r % 10)]) := by
  obtain ⟨r, hr, hall, hex⟩ := scanDir_spec _ hdir
  exact ⟨r, hr, hall, hex, ⟨_, writeDataToFlash_of_scan idx s fs r himu hr⟩, rfl, fmt4_lt r⟩

theorem exampleDir_fourDigit : FourDigitDir (fileNames exampleDir) := by
  intro e he
  simp only [fileNames, exampleDir, List.map_cons, List.map_nil, List.mem_cons,
    List.mem_singleton, List.not_mem_nil, or_false] at he
  rcases he with rfl | rfl
  · exact Or.inl ⟨0, by decide, by decide⟩
  · exact Or.inl ⟨3, by decide, by decide⟩

theorem C12_next_file_witness :
    exampleState.m_imu_init = true ∧ FourDigitDir (fileNames exampleDir) ∧
      scanDir (fileNames exampleDir) = some 4 ∧ logName 4 = ("datalog0004.bin").toList ∧
      ∃ r : Nat, scanDir (fileNames exampleDir) = some (r : Int) ∧
        ∃ s1, writeDataToFlash 0 exampleState exampleDir
          = some (s1, appendFile exampleDir (logName r) (exampleState.m_data_memory 0)) :=
  ⟨rfl, exampleDir_fourDigit, by decide, by decide,
    (C12_next_file exampleDir exampleState 0 rfl exampleDir_fourDigit).imp
      (fun _ h => ⟨h.1, h.2.2.2.1⟩)⟩

theorem range_fourDigit (k : Nat) (hk : k ≤ 10000) :
    FourDigitDir ((List.range k).map logName) := by
  intro e he
  obtain ⟨i, hi, rfl⟩ := List.mem_map.mp he
  exact Or.inl ⟨i, by have := List.mem_range.mp hi; omega, rfl⟩

/-- Scan of the directory holding the first `k` numbered files. -/
theorem scanDir_range (k : Nat) (hk : k ≤ 10000) :
    scanDir ((List.range k).map logName) = some (k : Int) := by
  unfold scanDir
  induction k with
  | zero => rfl
  | succ k ih =>
    rw [List.range_succ, List.map_append, scanFrom_append, ih (by omega)]
    simp only [List.map_cons, List.map_nil, Option.some_bind]
    rw [scanFrom_logName _ _ (by omega)]
    simp [scanFrom]

theorem scanDir_range_10001 :
    scanDir ((List.range 10001).map logName) = some 10000 := by
  unfold scanDir
  rw [List.range_succ, List.map_append, scanFrom_append]
  have h := scanDir_range 10000 (le_refl _)
  unfold scanDir at h
  rw [h]
  simp only [List.map_cons, List.map_nil, Option.some_bind]
  rw [scanFrom_10000]
  simp [scanFrom]

theorem logName_not_mem_range (k : Nat) (hk : k ≤ 10000) :
    logName k ∉ (List.range k).map logName := by
  intro hmem
  obtain ⟨i, hi, he⟩ := List.mem_map.mp hmem
  have hik := List.mem_range.mp hi
  by_cases hk' : k < 10000
  · have h1 := stoi_logName i (by omega)
    rw [he, stoi_logName k hk'] at h1
    have := Option.some.inj h1
    omega
  · have : k = 10000 := by omega
    subst this
    have := congrArg List.length he
    rw [logName_length i (by omega)] at this
    exact absurd this (by decide)

/-- Flushes in a row into a directory that holds the first `j` numbered files. -/
theorem flushTimes_names (idx : Fin 2) (k : Nat) :
    ∀ (j : Nat) (s : State) (fs : List LogFile), j + k ≤ 10001 → s.m_imu_init = true →
      fileNames fs = (List.range j).map logName →
      ∃ s1 fs1, flushTimes idx k s fs = some (s1, fs1) ∧ s1.m_imu_init = true ∧
        fileNames fs1 = (List.range (j + k)).map logName := by
  induction k with
  | zero => intro j s fs _ himu hn; exact ⟨s, fs, rfl, himu, hn⟩
  | succ k ih =>
    intro j s fs hjk himu hn
    have hscan : scanDir (fileNames fs) = some (j : Int) := by
      rw [hn]; exact scanDir_range j (by omega)
    have hw := writeDataToFlash_of_scan idx s fs j himu hscan
    have hnames : fileNames (appendFile fs (logName j) (s.m_data_memory idx))
        = (List.range (j + 1)).map logName := by
      rw [fileNames_appendFile, hn, if_neg (logName_not_mem_range j (by omega)),
        List.range_succ, List.map_append]
      rfl
    obtain ⟨s1, fs1, h1, h2, h3⟩ := ih (j + 1)
      { s with m_data_memory := Function.update s.m_data_memory idx [], m_saving := false }
      (appendFile fs (logName j) (s.m_data_memory idx)) (by omega) himu hnames
    refine ⟨s1, fs1, ?_, h2, ?_⟩
    · simp only [flushTimes, writeDataToFlashIDX, hw]
      exact h1
    · rw [h3]; congr 2; omega

/-- C13 at its failing input: 10001 flushes into an empty directory create the files numbered
0 to 10000, and the flush after them picks number 10000 again, so it writes into a file that
already exists and creates no new one. -/
theorem C13_number_reused_after_10001 :
    ∃ s1 fs1, flushTimes 0 10001 exampleState [] = some (s1, fs1) ∧
      fileNames fs1 = (List.range 10001).map logName ∧
      scanDir (fileNames fs1) = some 10000 ∧ logName 10000 ∈ fileNames fs1 ∧
      ∃ s2 fs2, writeDataToFlashIDX 0 s1 fs1 = some (s2, fs2) ∧
        fileNames fs2 = fileNames fs1 := by
  obtain ⟨s1, fs1, h1, h2, h3⟩ :=
    flushTimes_names 0 10001 0 exampleState [] (by omega) rfl rfl
  have h3' : fileNames fs1 = (List.range 10001).map logName := by
    rw [h3]
  have hscan : scanDir (fileNames fs1) = some ((10000 : Nat) : Int) := by
    rw [h3']; exact scanDir_range_10001
  have hmem : logName 10000 ∈ fileNames fs1 := by
    rw [h3']
    exact List.mem_map.mpr ⟨10000, List.mem_range.mpr (by omega), rfl⟩
  refine ⟨s1, fs1, h1, h3', hscan, hmem,
    { s1 with m_data_memory := Function.update s1.m_data_memory 0 [], m_saving := false },
    appendFile fs1 (logName 10000) (s1.m_data_memory 0), ?_, ?_⟩
  · unfold writeDataToFlashIDX
    exact writeDataToFlash_of_scan 0 s1 fs1 10000 h2 hscan
  · rw [fileNames_appendFile, if_pos hmem]

/-- C14: with the IMU set up, flushing slot `idx` (the scan of the directory giving number
`r`) puts exactly the bytes of that slot, in order, at the end of the chosen file and leaves
every other file as it was; in a directory of four-digit names the chosen file is new, so it
holds exactly those bytes. Afterwards the slot is empty, `m_saving` is false and the other
slot is unchanged. With the IMU not set up the flush changes neither the directory nor any
member. -/
theorem C14_flush_effect (idx : Fin 2) (s : State) (fs : List LogFile) (r : Nat)
    (hscan : scanDir (fileNames fs) = some (r : Int)) :
    (s.m_imu_init = true →
      ∃ (s1 : State) (fs1 : List LogFile),
        writeDataToFlash idx s fs = some (s1, fs1) ∧
        fileContent fs1 (logName r)
          = some ((fileContent fs (logName r)).getD [] ++ s.m_data_memory idx) ∧
        (FourDigitDir (fileNames fs) →
          fileContent fs (logName r) = none ∧
          fileContent fs1 (logName r) = some (s.m_data_memory idx)) ∧
        (∀ other, other ≠ logName r → fileContent fs1 other = fileContent fs other) ∧
        s1.m_data_memory idx = [] ∧ s1.m_saving = false ∧
        (∀ j, j ≠ idx → s1.m_data_memory j = s.m_data_memory j)) ∧
    (s.m_imu_init = false → writeDataToFlash idx s fs = some (s, fs)) := by
  refine ⟨fun himu => ?_, fun himu => ?_⟩
  · refine ⟨_, _, writeDataToFlash_of_scan idx s fs r himu hscan,
      fileContent_appendFile_same _ _ _, fun hdir => ?_, ?_, ?_, ?_, ?_⟩
    · obtain ⟨r1, hr, hall, hex⟩ := scanDir_spec _ hdir
      have e : r1 = r := by
        rw [hscan] at hr
        have := Option.some.inj hr
        omega
      subst e
      have hnew := fileContent_none_of_not_mem fs (logName r1)
        (chosen_is_new _ hdir r1 hall hex)
      refine ⟨hnew, ?_⟩
      rw [fileContent_appendFile_same, hnew]; rfl
    · intro other hne
      exact fileContent_appendFile_other fs _ _ _ hne
    · simp
    · rfl
    · intro j hj
      simp [Function.update_noteq hj]
  · simp [writeDataToFlash, himu]

theorem C14_flush_effect_witness :
    scanDir (fileNames exampleDir) = some ((4 : Nat) : Int) ∧ exampleState.m_imu_init = true ∧
      ∃ (s1 : State) (fs1 : List LogFile),
        writeDataToFlash 0 exampleState exampleDir = some (s1, fs1) ∧
        s1.m_data_memory 0 = [] ∧ s1.m_saving = false :=
  ⟨by decide, rfl,
    ((C14_flush_effect 0 exampleState exampleDir 4 (by decide)).1 rfl).imp
      (fun _ h => h.imp (fun _ h => ⟨h.1, h.2.2.2.2.1, h.2.2.2.2.2.1⟩))⟩

/-! ## Appending single bytes -/

theorem sameCfg_writeData8 (r : HeaderInputs) (d : Nat) (s : State) :
    SameCfg s (writeData8 r d s) := by
  unfold writeData8
  split
  · exact SameCfg.refl s
  · simp only []
    split
    · exact (sameCfg_writeHeader r s).trans (sameCfg_pushActive _ _)
    · exact sameCfg_pushActive _ s

/-- One call of `writeData(uint8_t)` with the IMU set up. -/
theorem active_writeData8 (r : HeaderInputs) (d : Nat) (s : State) (h : s.m_imu_init = true) :
    active (writeData8 r d s)
      = active s ++ (if (active s).length % 7220 = 0 then headerVec r s else []) ++ [d % 256]
      := by
  unfold writeData8
  simp only [h, Bool.not_true, Bool.false_eq_true, if_false]
  split
  · rw [writeHeader_of_imu r s h]; simp
  · simp

theorem sameCfg_loop8 (rs : Nat → HeaderInputs) (xs : List Nat) :
    ∀ (j : Nat) (s : State), SameCfg s (writeDataLoop8 rs j xs s) := by
  induction xs with
  | nil => intro j s; exact SameCfg.refl s
  | cons x xs ih =>
    intro j s
    exact (sameCfg_writeData8 (rs j) x s).trans (ih (j + 1) _)

theorem strip_byte (b off : Nat) (h : 20 ≤ off % 7220) : stripHeadersFrom off [b] = [b] := by
  simp only [stripHeadersFrom]
  rw [if_neg (by omega)]

/-- Length and content, headers removed, after single bytes were stored. -/
theorem loop8_strip (rs : Nat → HeaderInputs) (xs : List Nat) :
    ∀ (j n : Nat) (s : State), s.m_imu_init = true →
      (active s).length = n + 20 * ((n + 7199) / 7200) →
      (active (writeDataLoop8 rs j xs s)).length
          = n + xs.length + 20 * ((n + xs.length + 7199) / 7200) ∧
        stripHeaders (active (writeDataLoop8 rs j xs s))
          = stripHeaders (active s) ++ xs.map (fun b => b % 256) := by
  induction xs with
  | nil => intro j n s _ hl; simpa [writeDataLoop8] using hl
  | cons x xs ih =>
    intro j n s h hl
    have h1 : (writeData8 (rs j) x s).m_imu_init = true :=
      (sameCfg_writeData8 (rs j) x s).1.trans h
    have hl1 : (active (writeData8 (rs j) x s)).length
        = (n + 1) + 20 * ((n + 1 + 7199) / 7200) := by
      rw [active_writeData8 _ _ _ h]
      simp only [List.length_append, List.length_singleton]
      split
      · rw [headerVec_length]; omega
      · simp only [List.length_nil]; omega
    have hs1 : stripHeaders (active (writeData8 (rs j) x s))
        = stripHeaders (active s) ++ [x % 256] := by
      rw [active_writeData8 _ _ _ h]
      unfold stripHeaders
      rw [strip_append, strip_append]
      simp only [Nat.zero_add, List.length_append]
      by_cases hb : (active s).length % 7220 = 0
      · rw [if_pos hb,
          strip_in_header (headerVec (rs j) s) (active s).length
            (by rw [headerVec_length]; omega),
          strip_byte (x % 256) ((active s).length + (headerVec (rs j) s).length)
            (by rw [headerVec_length]; omega)]
        simp
      · rw [if_neg hb, show stripHeadersFrom (active s).length [] = [] from rfl]
        simp only [List.length_nil, List.append_nil, Nat.add_zero]
        rw [strip_byte (x % 256) (active s).length (by omega)]
    obtain ⟨ihl, ihs⟩ := ih (j + 1) (n + 1) _ h1 hl1
    simp only [writeDataLoop8, List.length_cons, List.map_cons]
    refine ⟨?_, ?_⟩
    · rw [ihl]; omega
    · rw [ihs, hs1]; simp

theorem map_mod_256 (data : List Nat) (h : ∀ b ∈ data, b < 256) :
    data.map (fun b => b % 256) = data := by
  induction data with
  | nil => rfl
  | cons b bs ih =>
    simp only [List.map_cons]
    rw [Nat.mod_eq_of_lt (h b (by simp)), ih (fun c hc => h c (by simp [hc]))]

/-- C15: destroying the logger after the bytes `data` were appended to an empty active vector
(IMU set up, no flush before, the scan of the directory giving number `r`) is one flush, of the
active slot: the whole active vector is put at the end of the chosen file and every other file
stays as it was; that vector holds `data` in order once its headers are removed. -/
theorem C15_shutdown_keeps_data (rs : Nat → HeaderInputs) (data : List Nat) (s : State)
    (fs : List LogFile) (r : Nat) (himu : s.m_imu_init = true) (hempty : active s = [])
    (hbytes : ∀ b ∈ data, b < 256) (hscan : scanDir (fileNames fs) = some (r : Int)) :
    destroy (writeDataVec8 rs data s) fs
        = writeDataToFlashIDX (writeDataVec8 rs data s).m_data_idx (writeDataVec8 rs data s) fs ∧
      (∃ (s1 : State) (fs1 : List LogFile),
        destroy (writeDataVec8 rs data s) fs = some (s1, fs1) ∧
        fileContent fs1 (logName r)
          = some ((fileContent fs (logName r)).getD [] ++ active (writeDataVec8 rs data s)) ∧
        (∀ other, other ≠ logName r → fileContent fs1 other = fileContent fs other)) ∧
      stripHeaders (active (writeDataVec8 rs data s)) = data ∧
      (active (writeDataVec8 rs data s)).length
        = data.length + 20 * ((data.length + 7199) / 7200) := by
  have hv : writeDataVec8 rs data s = writeDataLoop8 rs 0 data s := by
    simp [writeDataVec8, himu]
  have himu1 : (writeDataVec8 rs data s).m_imu_init = true := by
    rw [hv]; exact (sameCfg_loop8 rs data 0 s).1.trans himu
  obtain ⟨hl, hs⟩ := loop8_strip rs data 0 0 s himu (by simp [hempty])
  refine ⟨rfl, ?_, ?_, ?_⟩
  · refine ⟨_, _, writeDataToFlash_of_scan _ _ fs r himu1 hscan,
      fileContent_appendFile_same _ _ _, ?_⟩
    intro other hne
    exact fileContent_appendFile_other fs _ _ _ hne
  · rw [hv, hs, hempty, map_mod_256 data hbytes]
    simp [stripHeaders, stripHeadersFrom]
  · rw [hv, hl]; simp

theorem C15_shutdown_keeps_data_witness :
    exampleState.m_imu_init = true ∧ active exampleState = [] ∧
      (∀ b ∈ [10, 20, 255], b < 256) ∧
      scanDir (fileNames exampleDir) = some ((4 : Nat) : Int) ∧
      stripHeaders (active (writeDataVec8 exampleInputs [10, 20, 255] exampleState))
        = [10, 20, 255] :=
  ⟨rfl, rfl, by decide, by decide,
    (C15_shutdown_keeps_data exampleInputs [10, 20, 255] exampleState exampleDir 4 rfl rfl
      (by decide) (by decide)).2.2.1⟩

/-! ## Mixed append widths -/

/-- Two-byte values stored on top of an odd length never meet a block boundary. -/
theorem loop_odd_no_header (rs : Nat → HeaderInputs) (xs : List Int) :
    ∀ (j : Nat) (s : State), s.m_imu_init = true → (active s).length % 2 = 1 →
      active (writeDataLoop16 rs j xs s) = active s ++ xs.flatMap sampleBytes := by
  induction xs with
  | nil => intro j s _ _; simp [writeDataLoop16]
  | cons x xs ih =>
    intro j s h hodd
    have h1 : (writeData16 (rs j) x s).m_imu_init = true :=
      (sameCfg_writeData16 (rs j) x s).1.trans h
    have ha : active (writeData16 (rs j) x s) = active s ++ sampleBytes x := by
      rw [active_writeData16 _ _ _ h, if_neg (by omega)]; simp
    simp only [writeDataLoop16]
    rw [ih (j + 1) _ h1 (by rw [ha, List.length_append, sampleBytes_length]; omega), ha]
    simp [List.flatMap_cons]

/-- C23: one call of `writeData(uint8_t)` followed by 3600 calls of `writeData(int16_t)` on an
empty active vector gives 7221 bytes made of a single header, the byte, and the 7200 bytes of
the values: the length goes from 7219 to 7221 and no header is put at offset 7220, since each
two-byte call tests the length only before it writes. -/
theorem C23_mixed_widths_skip_header :
    (active (writeData8 (exampleInputs 0) 7 exampleState)).length = 21 ∧
      (active (writeDataLoop16 exampleInputs 1 (List.replicate 3599 0)
        (writeData8 (exampleInputs 0) 7 exampleState))).length = 7219 ∧
      (active (writeDataLoop16 exampleInputs 1 (List.replicate 3600 0)
        (writeData8 (exampleInputs 0) 7 exampleState))).length = 7221 ∧
      active (writeDataLoop16 exampleInputs 1 (List.replicate 3600 0)
          (writeData8 (exampleInputs 0) 7 exampleState))
        = headerVec (exampleInputs 0) exampleState ++ [7]
            ++ (List.replicate 3600 (0 : Int)).flatMap sampleBytes ∧
      ∀ i, i < 3600 → ¬ ∃ o, InsertsHeaderAt (exampleInputs (1 + i)) 0
        (writeDataLoop16 exampleInputs 1 (List.replicate i 0)
          (writeData8 (exampleInputs 0) 7 exampleState)) o := by
  have h8 : active (writeData8 (exampleInputs 0) 7 exampleState)
      = headerVec (exampleInputs 0) exampleState ++ [7] := by
    rw [active_writeData8 _ _ _ rfl]
    rfl
  have himu : (writeData8 (exampleInputs 0) 7 exampleState).m_imu_init = true := rfl
  have hlen : (active (writeData8 (exampleInputs 0) 7 exampleState)).length = 21 := by
    rw [h8, List.length_append, headerVec_length]; rfl
  have hloop : ∀ n, active (writeDataLoop16 exampleInputs 1 (List.replicate n 0)
        (writeData8 (exampleInputs 0) 7 exampleState))
      = headerVec (exampleInputs 0) exampleState ++ [7]
          ++ (List.replicate n (0 : Int)).flatMap sampleBytes := by
    intro n
    rw [loop_odd_no_header exampleInputs _ 1 _ himu (by rw [hlen]), h8]
  have hll : ∀ n, (active (writeDataLoop16 exampleInputs 1 (List.replicate n 0)
        (writeData8 (exampleInputs 0) 7 exampleState))).length = 21 + 2 * n := by
    intro n
    rw [hloop n, List.length_append, List.length_append, headerVec_length,
      flatMap_sampleBytes_length, List.length_replicate]
    rfl
  refine ⟨hlen, hll 3599, hll 3600, hloop 3600, fun i _ => ?_⟩
  rintro ⟨o, ho⟩
  rw [insertsHeaderAt_iff _ _ _ _ ((sameCfg_loop exampleInputs _ 1 _).1.trans himu),
    hll i] at ho
  omega

/-! ## Acquisition tick facts -/

/-- Storing data changes nothing but the log vectors. -/
theorem writeData16_frame (r : HeaderInputs) (d : Int) (s : State) :
    ∃ mem, writeData16 r d s = { s with m_data_memory := mem } := by
  unfold writeData16
  split
  · exact ⟨s.m_data_memory, rfl⟩
  · simp only []
    split
    · unfold writeHeader
      split
      · exact ⟨_, rfl⟩
      · exact ⟨_, rfl⟩
    · exact ⟨_, rfl⟩

theorem writeDataLoop16_frame (rs : Nat → HeaderInputs) (xs : List Int) :
    ∀ (j : Nat) (s : State), ∃ mem, writeDataLoop16 rs j xs s = { s with m_data_memory := mem }
    := by
  induction xs with
  | nil => intro j s; exact ⟨s.m_data_memory, rfl⟩
  | cons x xs ih =>
    intro j s
    obtain ⟨m1, h1⟩ := writeData16_frame (rs j) x s
    obtain ⟨m2, h2⟩ := ih (j + 1) (writeData16 (rs j) x s)
    refine ⟨m2, ?_⟩
    simp only [writeDataLoop16]
    rw [h2, h1]

theorem writeDataVec16_frame (rs : Nat → HeaderInputs) (xs : List Int) (s : State) :
    ∃ mem, writeDataVec16 rs xs s = { s with m_data_memory := mem } := by
  unfold writeDataVec16
  split
  · exact ⟨s.m_data_memory, rfl⟩
  · exact writeDataLoop16_frame rs xs 0 s

/-- The tick when its guard holds. -/
theorem t_imu_tick_sched (inp : ImuInputs) (s : State)
    (h : s.m_saving = false ∧ (s.m_force_save = true ∨ 134217728 ≤ (active s).length)) :
    (t_imu_tick inp s).2 = some s.m_data_idx ∧
      (t_imu_tick inp s).1.m_data_idx = flipIdx s.m_data_idx ∧
      (t_imu_tick inp s).1.m_force_save = false ∧
      (t_imu_tick inp s).1.m_saving = s.m_saving := by
  have hc : (!s.m_saving && (s.m_force_save || decide ((active s).length ≥ 134217728))) = true := by
    rcases h with ⟨h1, h2 | h2⟩
    · simp [h1, h2]
    · simp [h1, h2]
  obtain ⟨mem, hm⟩ := writeDataVec16_frame inp.rs inp.fifo
    { s with m_data_idx := flipIdx s.m_data_idx, m_force_save := false }
  simp [t_imu_tick, hc, hm]

/-- The tick when its guard fails. -/
theorem t_imu_tick_idle (inp : ImuInputs) (s : State)
    (h : ¬ (s.m_saving = false ∧ (s.m_force_save = true ∨ 134217728 ≤ (active s).length))) :
    (t_imu_tick inp s).2 = none ∧
      (t_imu_tick inp s).1.m_data_idx = s.m_data_idx ∧
      (t_imu_tick inp s).1.m_force_save = s.m_force_save ∧
      (t_imu_tick inp s).1.m_saving = s.m_saving := by
  have hc : (!s.m_saving && (s.m_force_save || decide ((active s).length ≥ 134217728))) = false := by
    cases hs : s.m_saving
    · cases hf : s.m_force_save
      · have : ¬ 134217728 ≤ (active s).length := fun c => h ⟨hs, Or.inr c⟩
        simp [this]
      · exact absurd ⟨hs, Or.inl hf⟩ h
    · simp
  obtain ⟨mem, hm⟩ := writeDataVec16_frame inp.rs inp.fifo s
  simp [t_imu_tick, hc, hm]

theorem flipIdx_ne (i : Fin 2) : flipIdx i ≠ i := by
  revert i; decide

/-! ## Acquisition tick -/

/-- C11 as stated fails: a tick that starts with `m_force_save` set while `m_saving` is set
launches no flush, keeps the active index and leaves `m_force_save` set. -/
theorem C11_no_flush_while_saving :
    ({ exampleState with m_force_save := true, m_saving := true } : State).m_force_save = true ∧
      (t_imu_tick exampleImu { exampleState with m_force_save := true, m_saving := true }).2
        = none ∧
      (t_imu_tick exampleImu { exampleState with m_force_save := true, m_saving := true }).1.m_data_idx
        = exampleState.m_data_idx ∧
      (t_imu_tick exampleImu
        { exampleState with m_force_save := true, m_saving := true }).1.m_force_save = true := by
  have h := t_imu_tick_idle exampleImu
    { exampleState with m_force_save := true, m_saving := true } (by simp)
  exact ⟨rfl, h.1, h.2.1, h.2.2.1⟩

/-- C11 (amended): for every acquisition tick that starts with `m_force_save` set and
`m_saving` clear, whatever the length of the active vector, the tick launches a flush of the
slot that was active, moves the active index to the other slot and leaves `m_force_save`
clear. -/
theorem C11_forced_save (inp : ImuInputs) (s : State) (hf : s.m_force_save = true)
    (hs : s.m_saving = false) :
    (t_imu_tick inp s).2 = some s.m_data_idx ∧
      (t_imu_tick inp s).1.m_data_idx = flipIdx s.m_data_idx ∧
      (t_imu_tick inp s).1.m_data_idx ≠ s.m_data_idx ∧
      (t_imu_tick inp s).1.m_force_save = false := by
  obtain ⟨h1, h2, h3, -⟩ := t_imu_tick_sched inp s ⟨hs, Or.inl hf⟩
  exact ⟨h1, h2, by rw [h2]; exact flipIdx_ne _, h3⟩

theorem C11_forced_save_witness :
    ({ exampleState with m_force_save := true } : State).m_force_save = true ∧
      ({ exampleState with m_force_save := true } : State).m_saving = false ∧
      (t_imu_tick exampleImu { exampleState with m_force_save := true }).2 = some 0 ∧
      (t_imu_tick exampleImu { exampleState with m_force_save := true }).1.m_force_save = false :=
  have h := C11_forced_save exampleImu { exampleState with m_force_save := true } rfl rfl
  ⟨rfl, rfl, h.1, h.2.2.2⟩

/-- C17: the value of `!x` is 0 or 1 for every 8-bit `x`, so the active index, which starts at
0 and is only ever assigned `!m_data_idx`, is 0 or 1 and exactly one slot is active; the swap
maps 0 to 1 and 1 to 0, swapping twice gives the index back, and a tick either keeps the index
or swaps it. -/
theorem C17_active_index (inp : ImuInputs) (s : State) (debug : Int) :
    (∀ x : Nat, lnot x = 0 ∨ lnot x = 1) ∧
      (platypus debug).m_data_idx = 0 ∧
      (s.m_data_idx = 0 ∨ s.m_data_idx = 1) ∧ ¬ (s.m_data_idx = 0 ∧ s.m_data_idx = 1) ∧
      (flipIdx s.m_data_idx).val = lnot s.m_data_idx.val ∧
      flipIdx 0 = 1 ∧ flipIdx 1 = 0 ∧
      flipIdx (flipIdx s.m_data_idx) = s.m_data_idx ∧
      ((t_imu_tick inp s).1.m_data_idx = s.m_data_idx ∨
        (t_imu_tick inp s).1.m_data_idx = flipIdx s.m_data_idx) := by
  refine ⟨fun x => ?_, rfl, ?_, ?_, rfl, by decide, by decide, ?_, ?_⟩
  · unfold lnot; split <;> simp
  · generalize s.m_data_idx = i; revert i; decide
  · generalize s.m_data_idx = i; revert i; decide
  · generalize s.m_data_idx = i; revert i; decide
  · by_cases h : s.m_saving = false ∧ (s.m_force_save = true ∨ 134217728 ≤ (active s).length)
    · exact Or.inr (t_imu_tick_sched inp s h).2.1
    · exact Or.inl (t_imu_tick_idle inp s h).2.1

/-- C21: a tick launches a flush of the active slot, swaps the active index and clears
`m_force_save` exactly when `m_saving` is false and `m_force_save` is set or the active vector
holds at least 134217728 bytes; in every other case it launches nothing and leaves the index
and `m_force_save` as they were, so a save request made while `m_saving` is set stays. -/
theorem C21_schedule_iff (inp : ImuInputs) (s : State) :
    ((s.m_saving = false ∧ (s.m_force_save = true ∨ 134217728 ≤ (active s).length)) →
        (t_imu_tick inp s).2 = some s.m_data_idx ∧
        (t_imu_tick inp s).1.m_data_idx = flipIdx s.m_data_idx ∧
        (t_imu_tick inp s).1.m_data_idx ≠ s.m_data_idx ∧
        (t_imu_tick inp s).1.m_force_save = false) ∧
      (¬ (s.m_saving = false ∧ (s.m_force_save = true ∨ 134217728 ≤ (active s).length)) →
        (t_imu_tick inp s).2 = none ∧
        (t_imu_tick inp s).1.m_data_idx = s.m_data_idx ∧
        (t_imu_tick inp s).1.m_force_save = s.m_force_save) ∧
      ((s.m_saving = true ∧ s.m_force_save = true) →
        (t_imu_tick inp s).2 = none ∧ (t_imu_tick inp s).1.m_force_save = true) := by
  refine ⟨fun h => ?_, fun h => ?_, fun h => ?_⟩
  · obtain ⟨h1, h2, h3, -⟩ := t_imu_tick_sched inp s h
    exact ⟨h1, h2, by rw [h2]; exact flipIdx_ne _, h3⟩
  · obtain ⟨h1, h2, h3, -⟩ := t_imu_tick_idle inp s h
    exact ⟨h1, h2, h3⟩
  · obtain ⟨h1, -, h3, -⟩ := t_imu_tick_idle inp s (by simp [h.1])
    exact ⟨h1, by rw [h3, h.2]⟩

theorem C21_schedule_iff_witness :
    (exampleState.m_saving = false ∧
        (({ exampleState with m_force_save := true } : State).m_force_save = true ∨
          134217728 ≤ (active exampleState).length)) ∧
      (t_imu_tick exampleImu { exampleState with m_force_save := true }).2 = some 0 :=
  ⟨⟨rfl, Or.inl rfl⟩,
    ((C21_schedule_iff exampleImu { exampleState with m_force_save := true }).1
      ⟨rfl, Or.inl rfl⟩).1⟩

/-! ## Latest-sample snapshot -/

theorem tick_snapshot (inp : ImuInputs) (s : State) :
    (t_imu_tick inp s).1.m_imu_data
      = (updateSnapshot inp.fifo s.m_imu_data).set 6 inp.rawTemp := by
  unfold t_imu_tick
  simp only []
  split
  · obtain ⟨mem, hm⟩ := writeDataVec16_frame inp.rs inp.fifo
      { s with m_data_idx := flipIdx s.m_data_idx, m_force_save := false }
    rw [hm]
  · obtain ⟨mem, hm⟩ := writeDataVec16_frame inp.rs inp.fifo s
    rw [hm]

theorem getD_append_len (pre last : List Int) (i : Nat) :
    (pre ++ last).getD (pre.length + i) 0 = last.getD i 0 := by
  induction pre with
  | nil => simp
  | cons p pre ih =>
    have e : (p :: pre).length + i = (pre.length + i) + 1 := by simp; omega
    rw [e]
    simpa using ih

theorem updateSnapshot_ge (fifo data : List Int) (h7 : data.length = 7)
    (h6 : 6 ≤ fifo.length) :
    updateSnapshot fifo data = fifo.drop (fifo.length - 6) ++ data.drop 6 := by
  have hf : fifo = fifo.take (fifo.length - 6) ++ fifo.drop (fifo.length - 6) :=
    (List.take_append_drop _ _).symm
  have hl : (fifo.drop (fifo.length - 6)).length = 6 := by
    rw [List.length_drop]; omega
  have hp : (fifo.take (fifo.length - 6)).length = fifo.length - 6 := by
    rw [List.length_take]; omega
  generalize fifo.drop (fifo.length - 6) = last at hf hl
  generalize fifo.take (fifo.length - 6) = pre at hf hp
  match data, h7, last, hl with
  | [a0, a1, a2, a3, a4, a5, a6], _, [g0, g1, g2, g3, g4, g5], _ =>
    unfold updateSnapshot
    rw [if_pos h6, ← hp]
    have hr : List.range 6 = [0, 1, 2, 3, 4, 5] := rfl
    rw [hr]
    simp only [List.foldl]
    have e0 := getD_append_len pre [g0, g1, g2, g3, g4, g5] 0
    have e1 := getD_append_len pre [g0, g1, g2, g3, g4, g5] 1
    have e2 := getD_append_len pre [g0, g1, g2, g3, g4, g5] 2
    have e3 := getD_append_len pre [g0, g1, g2, g3, g4, g5] 3
    have e4 := getD_append_len pre [g0, g1, g2, g3, g4, g5] 4
    have e5 := getD_append_len pre [g0, g1, g2, g3, g4, g5] 5
    rw [← hf] at e0 e1 e2 e3 e4 e5
    rw [e0, e1, e2, e3, e4, e5]
    rfl

/-- C22: the snapshot keeps exactly 7 values (7 after construction, 7 after every tick); after
a tick that read the FIFO sequence `F` and the raw temperature `T`, entry 6 is `T`, and
entries 0 to 5 are the last six elements of `F` in order when `F` has at least six elements
and are unchanged when it has fewer. -/
theorem C22_snapshot (inp : ImuInputs) (s : State) (debug : Int)
    (h7 : s.m_imu_data.length = 7) :
    (platypus debug).m_imu_data.length = 7 ∧
      (t_imu_tick inp s).1.m_imu_data.length = 7 ∧
      (t_imu_tick inp s).1.m_imu_data.get? 6 = some inp.rawTemp ∧
      (6 ≤ inp.fifo.length →
        (t_imu_tick inp s).1.m_imu_data.take 6 = inp.fifo.drop (inp.fifo.length - 6)) ∧
      (inp.fifo.length < 6 →
        (t_imu_tick inp s).1.m_imu_data.take 6 = s.m_imu_data.take 6) := by
  rw [tick_snapshot]
  have hu : (updateSnapshot inp.fifo s.m_imu_data).length = 7 := by
    by_cases h6 : 6 ≤ inp.fifo.length
    · rw [updateSnapshot_ge _ _ h7 h6, List.length_append, List.length_drop, List.length_drop]
      omega
    · unfold updateSnapshot
      rw [if_neg (by omega)]
      exact h7
  refine ⟨rfl, ?_, ?_, ?_, ?_⟩
  · rw [List.length_set]; exact hu
  · rw [List.get?_eq_getElem?, List.getElem?_set_self (by omega)]
  · intro h6
    rw [updateSnapshot_ge _ _ h7 h6]
    have hl : (inp.fifo.drop (inp.fifo.length - 6)).length = 6 := by
      rw [List.length_drop]; omega
    generalize inp.fifo.drop (inp.fifo.length - 6) = last at hl
    match s.m_imu_data, h7, last, hl with
    | [a0, a1, a2, a3, a4, a5, a6], _, [g0, g1, g2, g3, g4, g5], _ => rfl
  · intro h6
    unfold updateSnapshot
    rw [if_neg (by omega)]
    match s.m_imu_data, h7 with
    | [a0, a1, a2, a3, a4, a5, a6], _ => rfl

theorem C22_snapshot_witness :
    exampleState.m_imu_data.length = 7 ∧
      (t_imu_tick exampleImu exampleState).1.m_imu_data = [1, 2, 3, 4, 5, 6, 25] :=
  have h := C22_snapshot exampleImu exampleState 0 rfl
  ⟨rfl, by
    have h1 := h.2.1
    have h2 := h.2.2.1
    have h3 := h.2.2.2.1 (by decide)
    rw [tick_snapshot] at *
    rfl⟩

/-! ## Hand-over of a slot -/

theorem sameCfg_vec16 (rs : Nat → HeaderInputs) (xs : List Int) (s : State) :
    SameCfg s (writeDataVec16 rs xs s) := by
  unfold writeDataVec16
  split
  · exact SameCfg.refl s
  · exact sameCfg_loop rs xs 0 s

theorem loop_grows (rs : Nat → HeaderInputs) (xs : List Int) :
    ∀ (j : Nat) (s : State), s.m_imu_init = true →
      ∃ tail, active (writeDataLoop16 rs j xs s) = active s ++ tail ∧
        2 * xs.length ≤ tail.length := by
  induction xs with
  | nil => intro j s _; exact ⟨[], by simp [writeDataLoop16]⟩
  | cons x xs ih =>
    intro j s h
    have h1 : (writeData16 (rs j) x s).m_imu_init = true :=
      (sameCfg_writeData16 (rs j) x s).1.trans h
    obtain ⟨tail, ht, hl⟩ := ih (j + 1) _ h1
    refine ⟨(if (active s).length % 7220 = 0 then headerVec (rs j) s else [])
      ++ sampleBytes x ++ tail, ?_, ?_⟩
    · simp only [writeDataLoop16]
      rw [ht, active_writeData16 _ _ _ h]
      simp only [List.append_assoc]
    · simp only [List.length_append, sampleBytes_length, List.length_cons]
      omega

/-- Memory after a tick: the slot that is active after the tick grows by at least the bytes
of the FIFO values, the other slot is untouched. -/
theorem tick_memory (inp : ImuInputs) (s : State) (himu : s.m_imu_init = true) :
    (t_imu_tick inp s).1.m_imu_init = true ∧
      (∀ i, i ≠ (t_imu_tick inp s).1.m_data_idx →
        (t_imu_tick inp s).1.m_data_memory i = s.m_data_memory i) ∧
      ∃ tail, (t_imu_tick inp s).1.m_data_memory (t_imu_tick inp s).1.m_data_idx
          = s.m_data_memory (t_imu_tick inp s).1.m_data_idx ++ tail ∧
        2 * inp.fifo.length ≤ tail.length := by
  have key : ∀ s1 : State, s1.m_imu_init = true → s1.m_data_memory = s.m_data_memory →
      (writeDataVec16 inp.rs inp.fifo s1).m_imu_init = true ∧
      (∀ i, i ≠ (writeDataVec16 inp.rs inp.fifo s1).m_data_idx →
        (writeDataVec16 inp.rs inp.fifo s1).m_data_memory i = s.m_data_memory i) ∧
      ∃ tail, (writeDataVec16 inp.rs inp.fifo s1).m_data_memory
            (writeDataVec16 inp.rs inp.fifo s1).m_data_idx
          = s.m_data_memory (writeDataVec16 inp.rs inp.fifo s1).m_data_idx ++ tail ∧
        2 * inp.fifo.length ≤ tail.length := by
    intro s1 h1 hmem
    obtain ⟨c1, -, -, c4, c5⟩ := sameCfg_vec16 inp.rs inp.fifo s1
    refine ⟨c1.trans h1, fun i hi => ?_, ?_⟩
    · rw [c5 i (by rw [← c4]; exact hi), hmem]
    · have hv : writeDataVec16 inp.rs inp.fifo s1 = writeDataLoop16 inp.rs 0 inp.fifo s1 := by
        simp [writeDataVec16, h1]
      obtain ⟨tail, ht, hl⟩ := loop_grows inp.rs inp.fifo 0 s1 h1
      refine ⟨tail, ?_, hl⟩
      have : active (writeDataVec16 inp.rs inp.fifo s1) = active s1 ++ tail := by
        rw [hv]; exact ht
      unfold active at this
      rw [this, c4, hmem]
  unfold t_imu_tick
  simp only []
  split
  · exact key { s with m_data_idx := flipIdx s.m_data_idx, m_force_save := false } himu rfl
  · exact key s himu rfl

/-- Summary of a tick that finds nothing to flush. -/
theorem tick_idle_pack (inp : ImuInputs) (s : State) (himu : s.m_imu_init = true)
    (hs : s.m_saving = false) (hf : s.m_force_save = false)
    (hlen : (active s).length < 134217728) :
    ∃ t, t_imu_tick inp s = (t, none) ∧ t.m_imu_init = true ∧ t.m_saving = false ∧
      t.m_force_save = false ∧ t.m_data_idx = s.m_data_idx ∧
      ∃ tail, t.m_data_memory s.m_data_idx = s.m_data_memory s.m_data_idx ++ tail ∧
        2 * inp.fifo.length ≤ tail.length := by
  have g : ¬ (s.m_saving = false ∧
      (s.m_force_save = true ∨ 134217728 ≤ (active s).length)) := by
    rintro ⟨-, h | h⟩
    · rw [hf] at h; exact absurd h (by decide)
    · omega
  obtain ⟨a1, a2, a3, a4⟩ := t_imu_tick_idle inp s g
  obtain ⟨a5, -, tail, a7, a8⟩ := tick_memory inp s himu
  rw [a2] at a7
  exact ⟨(t_imu_tick inp s).1, Prod.ext rfl a1, a5, a4.trans hs, a3.trans hf, a2, tail, a7, a8⟩

/-- Summary of a tick that acts on a save request. -/
theorem tick_forced_pack (inp : ImuInputs) (s : State) (himu : s.m_imu_init = true)
    (hs : s.m_saving = false) (hf : s.m_force_save = true) :
    ∃ t, t_imu_tick inp s = (t, some s.m_data_idx) ∧ t.m_imu_init = true ∧
      t.m_saving = false ∧ t.m_force_save = false ∧ t.m_data_idx = flipIdx s.m_data_idx ∧
      t.m_data_memory s.m_data_idx = s.m_data_memory s.m_data_idx ∧
      ∃ tail, t.m_data_memory (flipIdx s.m_data_idx)
          = s.m_data_memory (flipIdx s.m_data_idx) ++ tail ∧
        2 * inp.fifo.length ≤ tail.length := by
  obtain ⟨a1, a2, a3, a4⟩ := t_imu_tick_sched inp s ⟨hs, Or.inl hf⟩
  obtain ⟨a5, a6, tail, a7, a8⟩ := tick_memory inp s himu
  rw [a2] at a7
  refine ⟨(t_imu_tick inp s).1, Prod.ext rfl a1, a5, a4.trans hs, a3, a2,
    a6 _ (by rw [a2]; exact (flipIdx_ne _).symm), tail, a7, a8⟩

theorem step_tick_of (inp : ImuInputs) (s t : State) (fs : List LogFile)
    (hd : List FlushTask) (o : Option (Fin 2)) (h : t_imu_tick inp s = (t, o)) :
    step (Event.tick inp) ⟨s, fs, hd⟩
      = some ⟨t, fs, hd ++ (match o with
          | some i => [⟨i, false⟩]
          | none => [])⟩ := by
  unfold step
  simp only [h]
  cases o <;> simp

/-- The interleaving in which a second save request is served before the first flush task has
started, for any device state with slot 0 active and nothing pending. -/
theorem race_general (inp : ImuInputs) (s : State) (fs : List LogFile)
    (himu : s.m_imu_init = true) (hs : s.m_saving = false) (hf : s.m_force_save = false)
    (hlen : (active s).length < 134217728) (hidx : s.m_data_idx = 0)
    (hfifo : inp.fifo ≠ []) :
    ∃ y y1, run [Event.tick inp, Event.setForceSave, Event.tick inp, Event.setForceSave]
          ⟨s, fs, []⟩ = some y ∧
      step (Event.tick inp) y = some y1 ∧
      y.handles = [⟨0, false⟩] ∧ HandedOver y 0 ∧ y.st.m_saving = false ∧
      y.st.m_data_memory 0 ≠ [] ∧
      y1.handles = [⟨0, false⟩, ⟨1, false⟩] ∧ HandedOver y1 0 ∧
      y1.st.m_data_idx = 0 ∧
      ∃ tail, tail ≠ [] ∧ y1.st.m_data_memory 0 = y.st.m_data_memory 0 ++ tail := by
  have hpos : 0 < inp.fifo.length := List.length_pos.mpr hfifo
  obtain ⟨t1, e1, i1, s1, f1, x1, tail1, m1, l1⟩ := tick_idle_pack inp s himu hs hf hlen
  rw [hidx] at x1 m1
  obtain ⟨t3, e3, i3, s3, f3, x3, k3, -⟩ :=
    tick_forced_pack inp { t1 with m_force_save := true } i1 s1 rfl
  have x3' : t3.m_data_idx = 1 := by
    rw [x3]; change flipIdx t1.m_data_idx = 1; rw [x1]; rfl
  have e3' : t_imu_tick inp { t1 with m_force_save := true } = (t3, some 0) := by
    rw [e3]; change (t3, some t1.m_data_idx) = (t3, some 0); rw [x1]
  have k3' : t3.m_data_memory 0 = t1.m_data_memory 0 := by
    have : ({ t1 with m_force_save := true } : State).m_data_idx = 0 := x1
    rw [this] at k3; exact k3
  obtain ⟨t5, e5, -, -, -, x5, -, tail5, m5, l5⟩ :=
    tick_forced_pack inp { t3 with m_force_save := true } i3 s3 rfl
  have x5' : t5.m_data_idx = 0 := by
    rw [x5]; change flipIdx t3.m_data_idx = 0; rw [x3']; rfl
  have e5' : t_imu_tick inp { t3 with m_force_save := true } = (t5, some 1) := by
    rw [e5]; change (t5, some t3.m_data_idx) = (t5, some 1); rw [x3']
  have m5' : t5.m_data_memory 0 = t3.m_data_memory 0 ++ tail5 := by
    have : flipIdx ({ t3 with m_force_save := true } : State).m_data_idx = 0 := by
      change flipIdx t3.m_data_idx = 0; rw [x3']; rfl
    rw [this] at m5; exact m5
  refine ⟨⟨{ t3 with m_force_save := true }, fs, [⟨0, false⟩]⟩,
    ⟨t5, fs, [⟨0, false⟩, ⟨1, false⟩]⟩, ?_, ?_, rfl, ⟨⟨0, false⟩, by simp, rfl⟩, s3, ?_, rfl,
    ⟨⟨0, false⟩, by simp, rfl⟩, x5', tail5, ?_, m5'⟩
  · have h1 : step (Event.tick inp) ⟨s, fs, []⟩ = some ⟨t1, fs, []⟩ := by
      rw [step_tick_of inp s t1 fs [] none e1]; rfl
    have h2 : step Event.setForceSave ⟨t1, fs, []⟩
        = some ⟨{ t1 with m_force_save := true }, fs, []⟩ := rfl
    have h3 : step (Event.tick inp) ⟨{ t1 with m_force_save := true }, fs, []⟩
        = some ⟨t3, fs, [⟨0, false⟩]⟩ := by
      rw [step_tick_of inp _ t3 fs [] (some 0) e3']; rfl
    have h4 : step Event.setForceSave ⟨t3, fs, [⟨0, false⟩]⟩
        = some ⟨{ t3 with m_force_save := true }, fs, [⟨0, false⟩]⟩ := rfl
    simp only [run, h1, h2, h3, h4]
  · rw [step_tick_of inp _ t5 fs _ (some 1) e5']
    rfl
  · change t3.m_data_memory 0 ≠ []
    rw [k3', m1]
    intro hc
    have := congrArg List.length hc
    simp only [List.length_append, List.length_nil] at this
    omega
  · intro hc
    rw [hc] at l5
    simp only [List.length_nil] at l5
    omega

/-- C16 at its failing input: slot 0 is given to a flush task by a tick; a second save request
arrives before that task has set `m_saving`; the next tick therefore launches a flush of slot
1, makes slot 0 active again and appends the new values to it while the flush of slot 0 has
not finished. -/
theorem C16_append_to_handed_over_slot :
    ∃ y y1, run raceTrace exampleSys = some y ∧
      step (Event.tick exampleImu) y = some y1 ∧
      y.handles = [⟨0, false⟩] ∧ HandedOver y 0 ∧ y.st.m_saving = false ∧
      y.st.m_data_memory 0 ≠ [] ∧
      y1.handles = [⟨0, false⟩, ⟨1, false⟩] ∧ HandedOver y1 0 ∧
      y1.st.m_data_idx = 0 ∧
      ∃ tail, tail ≠ [] ∧ y1.st.m_data_memory 0 = y.st.m_data_memory 0 ++ tail :=
  race_general exampleImu exampleState [] rfl rfl rfl (by decide) rfl (by decide)

/-! ## Display loop facts -/

theorem tick_eq (MT : Int) (d : DspLoop) (s : State) :
    t_display_tick MT d s
      = ({ prev_dsp := if !(t_display_switch MT d s).2.2
              then (t_display_switch MT d s).2.1.m_dsp_state else d.prev_dsp,
           sec_counter := (t_display_switch MT d s).1 }, (t_display_switch MT d s).2.1) := rfl

/-- The flag `state_changed` is set exactly when the iteration changes the display state, and
then the iteration was not an entry iteration. -/
theorem switch_changed (MT : Int) (d : DspLoop) (s : State) :
    ((t_display_switch MT d s).2.2 = true ↔
        (t_display_switch MT d s).2.1.m_dsp_state ≠ s.m_dsp_state) ∧
      ((t_display_switch MT d s).2.2 = true → d.prev_dsp = s.m_dsp_state) := by
  obtain ⟨a1, a2, a3, a4, a5, a6, a7, a8, a9, a10, a11, st, a13, a14, a15, a16⟩ := s
  obtain ⟨p, c⟩ := d
  cases st <;> simp only [t_display_switch] <;> (try split_ifs) <;> simp_all

/-- An entry iteration, and any iteration in a state without timeout, keeps the display
state. -/
theorem switch_entry (MT : Int) (d : DspLoop) (s : State) (h : d.prev_dsp ≠ s.m_dsp_state) :
    (t_display_switch MT d s).2.1 = s ∧ (t_display_switch MT d s).2.2 = false := by
  obtain ⟨a1, a2, a3, a4, a5, a6, a7, a8, a9, a10, a11, st, a13, a14, a15, a16⟩ := s
  obtain ⟨p, c⟩ := d
  cases st <;> simp only [t_display_switch] <;> (try split_ifs) <;> simp_all

theorem switch_flags (MT : Int) (d : DspLoop) (s : State) :
    ((t_display_switch MT d s).2.1.m_wifi_enabled ≠ s.m_wifi_enabled →
        s.m_dsp_state = DisplayStates.MENU_WIFI ∧ d.prev_dsp = DisplayStates.MENU_WIFI ∧
          ¬ d.sec_counter < MT) ∧
      ((t_display_switch MT d s).2.1.m_bt_enabled ≠ s.m_bt_enabled →
        s.m_dsp_state = DisplayStates.MENU_BT ∧ d.prev_dsp = DisplayStates.MENU_BT ∧
          ¬ d.sec_counter < MT) ∧
      ((t_display_switch MT d s).2.1.m_force_save ≠ s.m_force_save →
        s.m_dsp_state = DisplayStates.MENU_SAVE ∧ d.prev_dsp = DisplayStates.MENU_SAVE ∧
          ¬ d.sec_counter < MT) ∧
      (s.m_force_save = true → (t_display_switch MT d s).2.1.m_force_save = true) := by
  obtain ⟨a1, a2, a3, a4, a5, a6, a7, a8, a9, a10, a11, st, a13, a14, a15, a16⟩ := s
  obtain ⟨p, c⟩ := d
  cases st <;> simp only [t_display_switch] <;> (try split_ifs) <;> simp_all

/-! ## Display loop -/

/-- C18: a display iteration in a menu state with `prev_dsp` equal to that state and the
counter not below `MENU_TIME` sets the counter to 0 and goes to the target of the item:
MENU_BACK to CLOCK, MENU_STATS to STATS, MENU_CONFIG to CONFIG, and MENU_WIFI, MENU_BT,
MENU_SAVE to MENU_BACK, where MENU_WIFI negates `m_wifi_enabled`, MENU_BT negates
`m_bt_enabled` and MENU_SAVE sets `m_force_save`. No other display iteration changes one of
these three flags, and none clears `m_force_save`. -/
theorem C18_menu_timeouts (MT : Int) (d : DspLoop) (s : State) :
    ((d.prev_dsp = s.m_dsp_state ∧ ¬ d.sec_counter < MT) →
      (s.m_dsp_state = DisplayStates.MENU_BACK →
        t_display_tick MT d s
          = (⟨DisplayStates.MENU_BACK, 0⟩, { s with m_dsp_state := DisplayStates.CLOCK })) ∧
      (s.m_dsp_state = DisplayStates.MENU_STATS →
        t_display_tick MT d s
          = (⟨DisplayStates.MENU_STATS, 0⟩, { s with m_dsp_state := DisplayStates.STATS })) ∧
      (s.m_dsp_state = DisplayStates.MENU_CONFIG →
        t_display_tick MT d s
          = (⟨DisplayStates.MENU_CONFIG, 0⟩, { s with m_dsp_state := DisplayStates.CONFIG })) ∧
      (s.m_dsp_state = DisplayStates.MENU_WIFI →
        t_display_tick MT d s
          = (⟨DisplayStates.MENU_WIFI, 0⟩,
              { s with m_wifi_enabled := !s.m_wifi_enabled,
                       m_dsp_state := DisplayStates.MENU_BACK })) ∧
      (s.m_dsp_state = DisplayStates.MENU_BT →
        t_display_tick MT d s
          = (⟨DisplayStates.MENU_BT, 0⟩,
              { s with m_bt_enabled := !s.m_bt_enabled,
                       m_dsp_state := DisplayStates.MENU_BACK })) ∧
      (s.m_dsp_state = DisplayStates.MENU_SAVE →
        t_display_tick MT d s
          = (⟨DisplayStates.MENU_SAVE, 0⟩,
              { s with m_force_save := true, m_dsp_state := DisplayStates.MENU_BACK }))) ∧
    ((t_display_tick MT d s).2.m_wifi_enabled ≠ s.m_wifi_enabled →
      s.m_dsp_state = DisplayStates.MENU_WIFI ∧ d.prev_dsp = DisplayStates.MENU_WIFI ∧
        ¬ d.sec_counter < MT) ∧
    ((t_display_tick MT d s).2.m_bt_enabled ≠ s.m_bt_enabled →
      s.m_dsp_state = DisplayStates.MENU_BT ∧ d.prev_dsp = DisplayStates.MENU_BT ∧
        ¬ d.sec_counter < MT) ∧
    ((t_display_tick MT d s).2.m_force_save ≠ s.m_force_save →
      s.m_dsp_state = DisplayStates.MENU_SAVE ∧ d.prev_dsp = DisplayStates.MENU_SAVE ∧
        ¬ d.sec_counter < MT) ∧
    (s.m_force_save = true → (t_display_tick MT d s).2.m_force_save = true) := by
  refine ⟨?_, switch_flags MT d s⟩
  rintro ⟨hp, hc⟩
  obtain ⟨a1, a2, a3, a4, a5, a6, a7, a8, a9, a10, a11, st, a13, a14, a15, a16⟩ := s
  obtain ⟨p, c⟩ := d
  simp only at hp hc
  subst hp
  refine ⟨?_, ?_, ?_, ?_, ?_, ?_⟩ <;> intro h <;> simp only at h <;> subst h <;>
    simp [t_display_tick, t_display_switch, hc]

theorem C18_menu_timeouts_witness :
    (t_display_tick 5 ⟨DisplayStates.MENU_SAVE, 5⟩
        { exampleState with m_dsp_state := DisplayStates.MENU_SAVE }).2.m_force_save = true ∧
      (t_display_tick 5 ⟨DisplayStates.MENU_SAVE, 5⟩
        { exampleState with m_dsp_state := DisplayStates.MENU_SAVE }).2.m_dsp_state
        = DisplayStates.MENU_BACK :=
  have h := ((C18_menu_timeouts 5 ⟨DisplayStates.MENU_SAVE, 5⟩
    { exampleState with m_dsp_state := DisplayStates.MENU_SAVE }).1 ⟨rfl, by decide⟩).2.2.2.2.2 rfl
  ⟨by rw [h], by rw [h]⟩

/-- C20: an iteration that does not change the display state sets `prev_dsp` to that state.
An iteration that changes it (a timeout, the only case in which `state_changed` is set) ran
with `prev_dsp` equal to the old state and leaves `prev_dsp` there; the next iteration then
finds `prev_dsp` different from the new state, takes its entry branch, keeps the state and
sets `prev_dsp` to it. -/
theorem C20_previous_state (MT : Int) (d : DspLoop) (s : State) :
    ((t_display_switch MT d s).2.2 = true ↔
        (t_display_tick MT d s).2.m_dsp_state ≠ s.m_dsp_state) ∧
    ((t_display_tick MT d s).2.m_dsp_state = s.m_dsp_state →
        (t_display_tick MT d s).1.prev_dsp = s.m_dsp_state) ∧
    ((t_display_tick MT d s).2.m_dsp_state ≠ s.m_dsp_state →
        d.prev_dsp = s.m_dsp_state ∧
        (t_display_tick MT d s).1.prev_dsp = s.m_dsp_state ∧
        EntryBranch (t_display_tick MT d s).1 (t_display_tick MT d s).2 ∧
        (t_display_tick MT (t_display_tick MT d s).1 (t_display_tick MT d s).2).2.m_dsp_state
          = (t_display_tick MT d s).2.m_dsp_state ∧
        (t_display_tick MT (t_display_tick MT d s).1 (t_display_tick MT d s).2).1.prev_dsp
          = (t_display_tick MT d s).2.m_dsp_state) := by
  obtain ⟨hiff, hprev⟩ := switch_changed MT d s
  refine ⟨hiff, fun h => ?_, fun h => ?_⟩
  · have hc : (t_display_switch MT d s).2.2 = false := by
      cases hb : (t_display_switch MT d s).2.2
      · rfl
      · exact absurd h (hiff.mp hb)
    rw [tick_eq] at h ⊢
    simp only [hc, Bool.not_false, if_true]
    exact h
  · have hc : (t_display_switch MT d s).2.2 = true := hiff.mpr h
    have hp := hprev hc
    have h1 : (t_display_tick MT d s).1.prev_dsp = s.m_dsp_state := by
      rw [tick_eq]
      simp only [hc, Bool.not_true, Bool.false_eq_true, if_false]
      exact hp
    have he : EntryBranch (t_display_tick MT d s).1 (t_display_tick MT d s).2 := by
      unfold EntryBranch
      rw [h1]
      exact fun c => h c.symm
    obtain ⟨e1, e2⟩ := switch_entry MT _ _ he
    refine ⟨hp, h1, he, ?_, ?_⟩
    · rw [tick_eq MT (t_display_tick MT d s).1, e1]
    · rw [tick_eq MT (t_display_tick MT d s).1]
      simp only [e2, Bool.not_false, if_true, e1]

/-! ## Clock timeout -/

/-- What holds of the counter in every reachable pair: it is 0 in OFF, and 0 in CLOCK as long as
CLOCK has not had its entry iteration. -/
theorem clock_inv (MT : Int) (p : DspLoop × State) (h : DspReach MT p) :
    (p.2.m_dsp_state = DisplayStates.OFF → p.1.sec_counter = 0) ∧
      (p.2.m_dsp_state = DisplayStates.CLOCK → p.1.prev_dsp ≠ DisplayStates.CLOCK →
        p.1.sec_counter = 0) := by
  induction h with
  | start s => exact ⟨fun _ => rfl, fun _ _ => rfl⟩
  | tick d s _ ih =>
    obtain ⟨i1, i2⟩ := ih
    obtain ⟨a1, a2, a3, a4, a5, a6, a7, a8, a9, a10, a11, st, a13, a14, a15, a16⟩ := s
    obtain ⟨p, c⟩ := d
    simp only at i1 i2
    cases st <;> simp only [t_display_tick, t_display_switch] <;> (try split_ifs) <;> simp_all
  | tap d s x y z _ ih =>
    obtain ⟨i1, i2⟩ := ih
    simp only at i1 i2 ⊢
    by_cases hr : |x| > 1 ∨ |y| > 1 ∨ z < 9
    · rw [tap_event_rejected x y z s hr]
      exact ⟨i1, i2⟩
    · rw [tap_event_accepted x y z s hr]
      simp only
      constructor
      · intro h
        revert h
        cases s.m_dsp_state <;> simp [tapRing]
      · intro h _
        have hs : s.m_dsp_state = DisplayStates.OFF := by
          revert h
          cases s.m_dsp_state <;> simp [tapRing]
        exact i1 hs

theorem clock_entry_tick (MT : Int) (d : DspLoop) (s : State)
    (hc : s.m_dsp_state = DisplayStates.CLOCK) (he : d.prev_dsp ≠ DisplayStates.CLOCK) :
    t_display_tick MT d s = (⟨DisplayStates.CLOCK, d.sec_counter⟩, s) := by
  obtain ⟨a1, a2, a3, a4, a5, a6, a7, a8, a9, a10, a11, st, a13, a14, a15, a16⟩ := s
  obtain ⟨p, c⟩ := d
  simp only at hc he
  subst hc
  simp [t_display_tick, t_display_switch, he]

theorem clock_count_tick (MT : Int) (c : Int) (s : State)
    (hc : s.m_dsp_state = DisplayStates.CLOCK) (h : c < 180) :
    t_display_tick MT ⟨DisplayStates.CLOCK, c⟩ s = (⟨DisplayStates.CLOCK, c + 1⟩, s) := by
  obtain ⟨a1, a2, a3, a4, a5, a6, a7, a8, a9, a10, a11, st, a13, a14, a15, a16⟩ := s
  simp only at hc
  subst hc
  simp [t_display_tick, t_display_switch, h]

theorem clock_timeout_tick (MT : Int) (c : Int) (s : State)
    (hc : s.m_dsp_state = DisplayStates.CLOCK) (h : ¬ c < 180) :
    t_display_tick MT ⟨DisplayStates.CLOCK, c⟩ s
      = (⟨DisplayStates.CLOCK, 0⟩, { s with m_dsp_state := DisplayStates.OFF }) := by
  obtain ⟨a1, a2, a3, a4, a5, a6, a7, a8, a9, a10, a11, st, a13, a14, a15, a16⟩ := s
  simp only at hc
  subst hc
  simp [t_display_tick, t_display_switch, h]

theorem displayTicks_add (MT : Int) (m : Nat) :
    ∀ (n : Nat) (p : DspLoop × State),
      displayTicks MT (n + m) p = displayTicks MT m (displayTicks MT n p) := by
  intro n
  induction n with
  | zero => intro p; simp [displayTicks]
  | succ n ih =>
    intro p
    rw [show n + 1 + m = (n + m) + 1 by omega]
    simp only [displayTicks]
    exact ih _

theorem clock_count (MT : Int) (s : State) (hc : s.m_dsp_state = DisplayStates.CLOCK) :
    ∀ (k : Nat) (c : Int), c + k ≤ 180 →
      displayTicks MT k (⟨DisplayStates.CLOCK, c⟩, s) = (⟨DisplayStates.CLOCK, c + k⟩, s) := by
  intro k
  induction k with
  | zero => intro c _; simp [displayTicks]
  | succ k ih =>
    intro c h
    simp only [displayTicks]
    rw [clock_count_tick MT c s hc (by push_cast at h; omega), ih (c + 1) (by push_cast at h ⊢; omega)]
    congr 2
    push_cast
    ring

theorem reach_ticks (MT : Int) (n : Nat) :
    ∀ p : DspLoop × State, DspReach MT p → DspReach MT (displayTicks MT n p) := by
  induction n with
  | zero => intro p h; exact h
  | succ n ih =>
    intro p h
    exact ih _ (DspReach.tick p.1 p.2 h)

/-- C19: in every pair reachable after the display loop has started, by display iterations and
taps in any order, an iteration that takes the entry branch of CLOCK finds the counter at 0 and
leaves it as it is; with no tap, the state is CLOCK with counter `k` after that iteration and
`k` more, for every `k` up to 180, and the iteration after those 180 switches to OFF with the
counter back at 0. -/
theorem C19_clock_timeout (MT : Int) (d : DspLoop) (s : State) (hr : DspReach MT (d, s))
    (hc : s.m_dsp_state = DisplayStates.CLOCK) (he : EntryBranch d s) :
    d.sec_counter = 0 ∧
      (t_display_tick MT d s).1.sec_counter = d.sec_counter ∧
      (∀ k : Nat, k ≤ 180 →
        (displayTicks MT (1 + k) (d, s)).2.m_dsp_state = DisplayStates.CLOCK ∧
          (displayTicks MT (1 + k) (d, s)).1.sec_counter = k) ∧
      (displayTicks MT (1 + 180 + 1) (d, s)).2.m_dsp_state = DisplayStates.OFF ∧
      (displayTicks MT (1 + 180 + 1) (d, s)).1.sec_counter = 0 := by
  have hne : d.prev_dsp ≠ DisplayStates.CLOCK := by
    unfold EntryBranch at he
    rw [hc] at he
    exact he
  have h0 : d.sec_counter = 0 := (clock_inv MT (d, s) hr).2 hc hne
  have h1 : displayTicks MT 1 (d, s) = (⟨DisplayStates.CLOCK, 0⟩, s) := by
    simp only [displayTicks]
    rw [clock_entry_tick MT d s hc hne, h0]
  have hk : ∀ k : Nat, k ≤ 180 →
      displayTicks MT (1 + k) (d, s) = (⟨DisplayStates.CLOCK, (k : Int)⟩, s) := by
    intro k hk
    rw [displayTicks_add, h1, clock_count MT s hc k 0 (by omega)]
    simp
  have hend : displayTicks MT (1 + 180 + 1) (d, s)
      = (⟨DisplayStates.CLOCK, 0⟩, { s with m_dsp_state := DisplayStates.OFF }) := by
    rw [displayTicks_add, hk 180 (le_refl _)]
    simp only [displayTicks]
    rw [clock_timeout_tick MT _ s hc (by norm_num)]
  refine ⟨h0, ?_, fun k hk' => ?_, ?_, ?_⟩
  · rw [clock_entry_tick MT d s hc hne]
  · rw [hk k hk']; exact ⟨hc, rfl⟩
  · rw [hend]
  · rw [hend]

theorem C19_clock_timeout_witness :
    DspReach 5 ((displayTicks 5 7 (t_display_start exampleState)).1,
        (tap_event 0 0 9 (displayTicks 5 7 (t_display_start exampleState)).2).2) ∧
      (tap_event 0 0 9 (displayTicks 5 7 (t_display_start exampleState)).2).2.m_dsp_state
        = DisplayStates.CLOCK ∧
      (displayTicks 5 7 (t_display_start exampleState)).1.sec_counter = 0 :=
  have hr : DspReach 5 ((displayTicks 5 7 (t_display_start exampleState)).1,
      (tap_event 0 0 9 (displayTicks 5 7 (t_display_start exampleState)).2).2) :=
    DspReach.tap _ _ 0 0 9 (reach_ticks 5 7 _ (DspReach.start exampleState))
  have hacc : ¬ (|(0 : ℚ)| > 1 ∨ |(0 : ℚ)| > 1 ∨ (9 : ℚ) < 9) := by norm_num
  have hoff : (displayTicks 5 7 (t_display_start exampleState)).2.m_dsp_state
      = DisplayStates.OFF := by decide
  have hprev : (displayTicks 5 7 (t_display_start exampleState)).1.prev_dsp
      = DisplayStates.INIT := by decide
  have hc : (tap_event 0 0 9 (displayTicks 5 7 (t_display_start exampleState)).2).2.m_dsp_state
      = DisplayStates.CLOCK := by
    rw [tap_event_accepted 0 0 9 _ hacc]
    simp only [hoff, tapRing]
  ⟨hr, hc, (C19_clock_timeout 5 _ _ hr hc (by
      unfold EntryBranch
      rw [hc, hprev]
      decide)).1⟩

end Platypus
